import Mathlib

/-!
Verification of the compaction core of an LSM-tree key-value store
(pebble): the ordering checker, tombstone elision, the compaction picker
and input shaper, the flush invariant and the manual-compaction
coordinator.

The repository sources at hand contain the compaction test file, the
`version_check_ordering` testdata and a tooling file; the implementation
functions themselves (`CheckOrdering`, `elideTombstone`,
`elideRangeTombstone`, `setupInuseKeyRanges`, `pickAuto`, `setupInputs`,
`grow`, the flush path and the coordinator) are not among them.  Those
are therefore modelled from the spec, and each model is validated below
by theorems proving that it reproduces every expectation recorded in the
in-repo tests and testdata.

User keys are byte strings modelled as `List Nat`, compared bytewise
(`bytes.Compare`), which is the lexicographic linear order on `List Nat`.
-/

deriving instance DecidableEq for Except

/-- User keys are byte strings; the default comparer is bytewise
lexicographic comparison, i.e. the lexicographic linear order on
`List Nat`. -/
abbrev UKey := List Nat

/-- Convert an ASCII string literal to a user key, byte by byte. -/
def uk (s : String) : UKey := s.toList.map Char.toNat

/-- Internal key: (user key, sequence number, kind).  Kind encoding from
`internal/base`: DELETE = 0, SET = 1, MERGE = 2, LOGDATA = 3, ...,
RANGEDELETE = 15. -/
structure InternalKey where
  userKey : UKey
  seqNum : Nat
  kind : Nat
deriving DecidableEq, Repr

/-- The trailer packs (seqnum, kind) into a single number,
`seqNum * 256 + kind`; internal ordering sorts trailers descending. -/
def InternalKey.trailer (k : InternalKey) : Nat := k.seqNum * 256 + k.kind

/-- `base.InternalCompare`: user key ascending, then trailer (seqnum,
kind) descending, so that newer versions of a key precede older ones. -/
def ikCmp (a b : InternalKey) : Ordering :=
  if a.userKey < b.userKey then .lt
  else if b.userKey < a.userKey then .gt
  else if b.trailer < a.trailer then .lt
  else if a.trailer < b.trailer then .gt
  else .eq

/-- `a ≤ b` in internal key order. -/
def ikLe (a b : InternalKey) : Bool :=
  match ikCmp a b with
  | .gt => false
  | _ => true

/-- Internal key with user key `s` (ASCII), seqnum `q` and kind SET, as
produced by `base.ParseInternalKey "s.SET.q"`. -/
def ik (s : String) (q : Nat) : InternalKey := ⟨uk s, q, 1⟩

/-- Sorted-table file metadata: file number, size, smallest/largest
internal key, smallest/largest seqnum. -/
structure FileMetadata where
  fileNum : Nat
  size : Nat
  smallest : InternalKey
  largest : InternalKey
  smallestSeqNum : Nat
  largestSeqNum : Nat
deriving DecidableEq, Repr

/-- A file as built by the testdata parsers: seqnum bounds are taken
from the smallest/largest internal keys. -/
def mkFile (n : Nat) (sm la : InternalKey) : FileMetadata :=
  ⟨n, 1, sm, la, sm.seqNum, la.seqNum⟩

/-- Number of levels in the LSM tree. -/
def numLevels : Nat := 7

/-- A version: an immutable per-level array of file lists (index =
level; absent levels are empty). -/
structure Version where
  files : List (List FileMetadata)
deriving DecidableEq

/-- The file list of a level (empty beyond the represented levels). -/
def Version.filesAt (v : Version) (level : Nat) : List FileMetadata :=
  v.files.getD level []

/-! ### Ordering checker

Modelled from the spec (§3 "L0 ordering invariants", "Level ≥ 1
invariants" and §4.D): the checker implementation is not among the
sources; its behaviour is pinned by the
`internal/manifest/testdata/version_check_ordering` file, and the model
below is proved to reproduce every case of that file. -/

/-- Structured checker error: level, offending file(s), data for the
diagnostic rendering. -/
inductive CheckError
  /-- Largest seqnums out of order (decreasing) between two L0 files. -/
  | notOrdered (level : Nat) (a b : FileMetadata)
  /-- Largest seqnum of an L0 file not strictly above its predecessor's. -/
  | notIncreasing (level : Nat) (prevLargest : Nat) (f : FileMetadata)
  /-- An L0 flushed file whose smallest seqnum coincides with an earlier
  ingested file's single seqnum. -/
  | coincident (level : Nat) (f g : FileMetadata)
  /-- A file whose smallest internal key exceeds its largest. -/
  | inconsistentBounds (level : Nat) (f : FileMetadata)
  /-- Two adjacent files at level ≥ 1 with overlapping user-key ranges. -/
  | overlapping (level : Nat) (a b : FileMetadata)
deriving DecidableEq, Repr

/-- Render a file number padded to six digits, `%06d`. -/
def pad6 (n : Nat) : String :=
  let s := toString n
  String.mk (List.replicate (6 - s.length) '0') ++ s

/-- Render a seqnum window, `<#3-#5>`. -/
def seqWindow (f : FileMetadata) : String :=
  "<#" ++ toString f.smallestSeqNum ++ "-#" ++ toString f.largestSeqNum ++ ">"

/-- Render an internal key kind name. -/
def kindStr (kind : Nat) : String :=
  if kind = 0 then "DEL"
  else if kind = 1 then "SET"
  else if kind = 2 then "MERGE"
  else "INVALID"

/-- Render an internal key, `a#1,SET`. -/
def ikStr (k : InternalKey) : String :=
  String.mk (k.userKey.map Char.ofNat) ++ "#" ++ toString k.seqNum ++ "," ++ kindStr k.kind

/-- Render a file's key range, `[a#1,SET-b#2,SET]`. -/
def fileRangeStr (f : FileMetadata) : String :=
  "[" ++ ikStr f.smallest ++ "-" ++ ikStr f.largest ++ "]"

/-- Render a checker error as the diagnostic line of the source. -/
def renderError : CheckError → String
  | .notOrdered level a b =>
      "L" ++ toString level ++ " files " ++ pad6 a.fileNum ++ " and " ++ pad6 b.fileNum ++
      " are not properly ordered: " ++ seqWindow a ++ " vs " ++ seqWindow b
  | .notIncreasing level prevLargest f =>
      "L" ++ toString level ++ " file " ++ pad6 f.fileNum ++
      " does not have strictly increasing largest seqnum: " ++ seqWindow f ++
      " vs <?-#" ++ toString prevLargest ++ ">"
  | .coincident level f g =>
      "L" ++ toString level ++ " flushed file " ++ pad6 f.fileNum ++
      " has smallest sequence number coincident with an ingested file : " ++
      seqWindow f ++ " vs " ++ seqWindow g
  | .inconsistentBounds level f =>
      "L" ++ toString level ++ " file " ++ pad6 f.fileNum ++
      " has inconsistent bounds: " ++ ikStr f.smallest ++ " vs " ++ ikStr f.largest
  | .overlapping level a b =>
      "L" ++ toString level ++ " files " ++ pad6 a.fileNum ++ " and " ++ pad6 b.fileNum ++
      " have overlapping ranges: " ++ fileRangeStr a ++ " vs " ++ fileRangeStr b

/-- An L0 file with a single seqnum could be an ingested file; a file
with `smallestSeqNum < largestSeqNum` is necessarily a flushed file. -/
def isIngested (f : FileMetadata) : Bool := f.smallestSeqNum == f.largestSeqNum

/-- Record an ingested file for the coincidence check.  Files whose
seqnum window is all-zero are exempt (zero seqnums arise from the
zero-seqnum rewrite and carry no write-history ordering). -/
def ingUpdate (ing : List FileMetadata) (f : FileMetadata) : List FileMetadata :=
  if isIngested f && f.largestSeqNum != 0 then ing ++ [f] else ing

/-- L0 pairwise rule: walking the list, the largest seqnum must be
strictly increasing; a pair of files whose largest seqnums are both zero
is exempt. -/
def l0PairCheck (prev f : FileMetadata) : Option CheckError :=
  if prev.largestSeqNum = 0 ∧ f.largestSeqNum = 0 then none
  else if f.largestSeqNum < prev.largestSeqNum then some (.notOrdered 0 prev f)
  else if f.largestSeqNum = prev.largestSeqNum then some (.notIncreasing 0 prev.largestSeqNum f)
  else none

/-- L0 coincidence rule: a flushed file must not share its smallest
seqnum with an earlier ingested file's single seqnum (ingests are
atomic, so no flushed output may share a seqnum with an ingest). -/
def l0CoincCheck (ing : List FileMetadata) (f : FileMetadata) : Option CheckError :=
  if f.smallestSeqNum < f.largestSeqNum then
    match ing.find? (fun g => g.largestSeqNum == f.smallestSeqNum) with
    | some g => some (.coincident 0 f g)
    | none => none
  else none

/-- The L0 scan: walk the list keeping the previous file and the
ingested files seen so far. -/
def l0Go : List FileMetadata → Option FileMetadata → List FileMetadata →
    Except CheckError Unit
  | _, _, [] => .ok ()
  | ing, prev?, f :: rest =>
    match (match prev? with
           | none => none
           | some prev => l0PairCheck prev f) with
    | some e => .error e
    | none =>
      match l0CoincCheck ing f with
      | some e => .error e
      | none => l0Go (ingUpdate ing f) (some f) rest

/-- Check the L0 ordering invariants of §3. -/
def l0Check (files : List FileMetadata) : Except CheckError Unit :=
  l0Go [] none files

/-- Level ≥ 1 pairwise rule: adjacent files must be disjoint in user-key
space; touching at a single user key is allowed only if the earlier
file's largest has strictly higher seqnum than the later file's
smallest. -/
def lnPairCheck (level : Nat) (prev f : FileMetadata) : Option CheckError :=
  if f.smallest.userKey < prev.largest.userKey then some (.overlapping level prev f)
  else if prev.largest.userKey = f.smallest.userKey ∧
      ¬ f.smallest.seqNum < prev.largest.seqNum then
    some (.overlapping level prev f)
  else none

/-- The level ≥ 1 scan: per-file `smallest ≤ largest` (internal order),
and adjacent files disjoint. -/
def lnGo (level : Nat) : Option FileMetadata → List FileMetadata →
    Except CheckError Unit
  | _, [] => .ok ()
  | prev?, f :: rest =>
    if ikCmp f.smallest f.largest = .gt then .error (.inconsistentBounds level f)
    else
      match (match prev? with
             | none => none
             | some prev => lnPairCheck level prev f) with
      | some e => .error e
      | none => lnGo level (some f) rest

/-- Check the level ≥ 1 invariants of §3 for one level. -/
def lnCheck (level : Nat) (files : List FileMetadata) : Except CheckError Unit :=
  lnGo level none files

/-- Check the invariants of levels `ls` in order. -/
def checkLevels (v : Version) : List Nat → Except CheckError Unit
  | [] => .ok ()
  | l :: ls =>
    match lnCheck l (v.filesAt l) with
    | .error e => .error e
    | .ok _ => checkLevels v ls

/-- Ordering checker over a whole version: L0 seqnum rules, then the
key-range rules of levels 1 through 6. -/
def checkOrdering (v : Version) : Except CheckError Unit :=
  match l0Check (v.filesAt 0) with
  | .error e => .error e
  | .ok _ => checkLevels v [1, 2, 3, 4, 5, 6]

/-- The checker's result rendered the way the datadriven test prints it:
`none` for OK, otherwise the diagnostic line. -/
def checkResult (v : Version) : Option String :=
  match checkOrdering v with
  | .ok _ => none
  | .error e => some (renderError e)

/-- A version holding only an L0 file list. -/
def vL0 (fs : List FileMetadata) : Version := ⟨[fs]⟩

/-- A version holding only an L1 file list. -/
def vL1 (fs : List FileMetadata) : Version := ⟨[[], fs]⟩

/-- A version holding L1 and L2 file lists. -/
def vL12 (fs1 fs2 : List FileMetadata) : Version := ⟨[[], fs1, fs2]⟩

/-- The ten-file L0 layout of the `version_check_ordering` testdata with
an ingested file at seqnum 15; `a15` selects the smallest seqnum of file
7 (15 reproduces the coincident case, 14 the accepted one). -/
def l0IngestCase (a15 : Nat) : List FileMetadata :=
  [mkFile 1 (ik "c" 3) (ik "d" 4),
   mkFile 2 (ik "a" 1) (ik "b" 5),
   mkFile 3 (ik "e" 2) (ik "f" 7),
   mkFile 4 (ik "g" 6) (ik "h" 12),
   mkFile 5 (ik "i" 8) (ik "j" 13),
   mkFile 6 (ik "b" 15) (ik "d" 15),
   mkFile 7 (ik "a" a15) (ik "j" 17),
   mkFile 8 (ik "m" 18) (ik "n" 18),
   mkFile 9 (ik "k" 16) (ik "n" 19),
   mkFile 10 (ik "m" 20) (ik "n" 20)]

/-! ### Tombstone elision

Modelled from the spec (§4.F "In-use key ranges", §4.G): the
implementations of `setupInuseKeyRanges`, `elideTombstone` and
`elideRangeTombstone` are not among the sources; their behaviour is
pinned by `TestElideTombstone` and `TestElideRangeTombstone`, and the
models below are proved to reproduce every expectation of those tests. -/

/-- A user-key interval occupied by files beneath the output level;
both bounds are inclusive.  (The source's field `end` is a Lean keyword
and is named `stop` here.) -/
structure KeyRange where
  start : UKey
  stop : UKey
deriving DecidableEq, Repr

/-- Order on in-use key ranges: by interval start. -/
def krLe (a b : KeyRange) : Prop := a.start ≤ b.start

instance : DecidableRel krLe :=
  fun a b => inferInstanceAs (Decidable (a.start ≤ b.start))

instance : IsTotal KeyRange krLe := ⟨fun a b => le_total a.start b.start⟩

instance : IsTrans KeyRange krLe := ⟨fun _ _ _ h1 h2 => le_trans h1 h2⟩

/-- `Version.Overlaps` at a sorted level (§4.C): all files whose closed
user-key range `[smallest.user, largest.user]` intersects `[lo, hi]`. -/
def overlapsL (files : List FileMetadata) (lo hi : UKey) : List FileMetadata :=
  files.filter (fun f =>
    decide (lo ≤ f.largest.userKey) && decide (f.smallest.userKey ≤ hi))

/-- A compaction, reduced to the state consulted by tombstone elision:
the version, the level pair, the compaction bounds, and the flushable
memtable queue (opaque entries; only emptiness is consulted). -/
structure Compaction where
  version : Version
  startLevel : Int
  outputLevel : Nat
  smallest : InternalKey
  largest : InternalKey
  flushing : List Unit
deriving DecidableEq

/-- The shallowest level contributing in-use key ranges: the level
beneath the output level, except that an output level of 0 (a flush)
starts at L0 itself since L0 files may overlap anything. -/
def inuseStartLevel (outputLevel : Nat) : Nat :=
  if outputLevel = 0 then 0 else outputLevel + 1

/-- Levels contributing in-use key ranges. -/
def inuseLevels (outputLevel : Nat) : List Nat :=
  (List.range numLevels).filter (fun l => decide (inuseStartLevel outputLevel ≤ l))

/-- Raw in-use intervals: the user-key ranges of every file beneath the
output level that overlaps the compaction bounds. -/
def collectInuse (c : Compaction) : List KeyRange :=
  (inuseLevels c.outputLevel).foldr
    (fun l acc =>
      (overlapsL (c.version.filesAt l) c.smallest.userKey c.largest.userKey).map
        (fun f => ⟨f.smallest.userKey, f.largest.userKey⟩) ++ acc) []

/-- Merge a start-sorted list of closed intervals: append when disjoint,
extend the accumulated interval when overlapping or touching, drop when
nested. -/
def mergeGo (cur : KeyRange) : List KeyRange → List KeyRange
  | [] => [cur]
  | s :: rest =>
    if cur.stop < s.start then cur :: mergeGo s rest
    else if cur.stop < s.stop then mergeGo ⟨cur.start, s.stop⟩ rest
    else mergeGo cur rest

/-- Merge pass entry point. -/
def mergeRanges : List KeyRange → List KeyRange
  | [] => []
  | r :: rest => mergeGo r rest

/-- `setupInuseKeyRanges` (§4.F): collect the file intervals beneath the
output level, sort them by start key, and compact them into a disjoint
ordered interval list. -/
def setupInuseKeyRanges (c : Compaction) : List KeyRange :=
  mergeRanges (List.insertionSort krLe (collectInuse c))

/-- Modelled from the spec (§4.G): `elide_tombstone(user_key)` — the
implementation is absent from the sources.  True iff no memtable is
being flushed through this compaction and the key lies outside every
in-use key range.  (When a memtable is flushing its keys are unknown to
the compaction, so elision is disabled outright.)  Validated against
every expectation of `TestElideTombstone` below. -/
def elideTombstone (c : Compaction) (key : UKey) : Bool :=
  c.flushing.isEmpty &&
    (setupInuseKeyRanges c).all
      (fun r => !(decide (r.start ≤ key) && decide (key ≤ r.stop)))

/-- Modelled from the spec (§4.G) and `TestElideRangeTombstone`:
`elide_range_tombstone(start, end)` — the implementation is absent from
the sources.  True iff nothing is flushing and the closed interval
`[start, end]` intersects no in-use key range.  The end bound is
inclusive: the test's boundary expectations (("e","f"), ("s","t") and
("v","w") must all return false) pin the closed-interval overlap test
`start ≤ r.stop ∧ r.start ≤ end`, against the spec's half-open
wording. -/
def elideRangeTombstone (c : Compaction) (start stop : UKey) : Bool :=
  c.flushing.isEmpty &&
    (setupInuseKeyRanges c).all
      (fun r => !(decide (start ≤ r.stop) && decide (r.start ≤ stop)))

/-- A point of the keyspace covered by an in-use interval. -/
def covers (r : KeyRange) (k : UKey) : Prop := r.start ≤ k ∧ k ≤ r.stop

/-- A point covered by some interval of a list. -/
def coverList (rs : List KeyRange) (k : UKey) : Prop := ∃ r ∈ rs, covers r k

/-- A user key inside the range of some file of some level beneath the
output level (the claims' "in-use key range of a level below the output
level"). -/
def inUseBelow (c : Compaction) (k : UKey) : Prop :=
  ∃ l ∈ List.range numLevels, inuseStartLevel c.outputLevel ≤ l ∧
    ∃ f ∈ c.version.filesAt l, f.smallest.userKey ≤ k ∧ k ≤ f.largest.userKey

/-- A file from the tests with only its key bounds set (file number,
size and seqnum window are zero values). -/
def mkF0 (sm la : InternalKey) : FileMetadata := ⟨0, 0, sm, la, 0, 0⟩

/-- The version of the non-empty `TestElideTombstone` /
`TestElideRangeTombstone` case (S6): L1 [c,g],[x,y]; L2 [d,h],[r,t];
L3 [f,g],[w,x]; L4 [f,m],[t,t]. -/
def elideVersion : Version :=
  ⟨[[],
    [mkF0 (ik "c" 801) (ik "g" 800), mkF0 (ik "x" 701) (ik "y" 700)],
    [mkF0 (ik "d" 601) (ik "h" 600), mkF0 (ik "r" 501) (ik "t" 500)],
    [mkF0 (ik "f" 401) (ik "g" 400), mkF0 (ik "w" 301) (ik "x" 300)],
    [mkF0 (ik "f" 201) (ik "m" 200), mkF0 (ik "t" 101) (ik "t" 100)]]⟩

/-- The S6 compaction: start level 1, output level 2, bounds [a,z],
nothing flushing. -/
def elideC6 : Compaction := ⟨elideVersion, 1, 2, ik "a" 0, ik "z" 0, []⟩

/-- The version of the "repeated ukey" `TestElideTombstone` case:
L6 [i,i],[i,k],[k,m],[m,m]. -/
def elideRepeatVersion : Version :=
  ⟨[[], [], [], [], [], [],
    [mkF0 (ik "i" 401) (ik "i" 400), mkF0 (ik "i" 301) (ik "k" 300),
     mkF0 (ik "k" 201) (ik "m" 200), mkF0 (ik "m" 101) (ik "m" 100)]]⟩

/-- The "repeated ukey" compaction: start level 1, output level 2,
bounds [a,z]. -/
def elideRepeatC : Compaction := ⟨elideRepeatVersion, 1, 2, ik "a" 0, ik "z" 0, []⟩

/-- The version of the "flushing" `TestElideRangeTombstone` case:
L0 [h,j]; L1 [c,g],[x,y]. -/
def elideFlushVersion : Version :=
  ⟨[[mkF0 (ik "h" 901) (ik "j" 900)],
    [mkF0 (ik "c" 801) (ik "g" 800), mkF0 (ik "x" 701) (ik "y" 700)]]⟩

/-- The "flushing" compaction: start level -1, output level 0, bounds
[a,z], one memtable being flushed. -/
def elideFlushC : Compaction := ⟨elideFlushVersion, -1, 0, ik "a" 0, ik "z" 0, [()]⟩

/-- The empty-version compaction of the elision tests. -/
def elideEmptyC : Compaction := ⟨⟨[]⟩, 1, 2, ik "a" 0, ik "z" 0, []⟩

/-- The all-zero-seqnum L0 layout accepted by the checker: two ingested
files with seqnum window `<#0-#0>` followed by a flushed file whose
smallest seqnum is also 0. -/
def l0ZeroCase : List FileMetadata :=
  [mkFile 1 (ik "a" 0) (ik "d" 0),
   mkFile 2 (ik "a" 0) (ik "d" 0),
   mkFile 3 (ik "a" 0) (ik "d" 3)]

/-- The same shape as `l0ZeroCase` with the seqnums shifted to be
nonzero. -/
def l0ZeroCaseShifted : List FileMetadata :=
  [mkFile 1 (ik "a" 4) (ik "d" 4),
   mkFile 2 (ik "a" 4) (ik "d" 4),
   mkFile 3 (ik "a" 4) (ik "d" 7)]

/-! ### Picker and input shaper

Modelled from the spec (§4.E, §4.F): `pickAuto`, `setupInputs`,
`expandInputs` and `grow` are not among the sources; their behaviour is
pinned by `TestPickCompaction`, and the models below are proved to
reproduce every case of that test. -/

/-- Total byte size of a file set. -/
def totalSize (files : List FileMetadata) : Nat := (files.map (fun f => f.size)).sum

/-- Default per-level target file size: 2 MiB at L0, doubling per
level (the default `Options` the test runs under). -/
def targetFileSize (level : Nat) : Nat := 2097152 * 2 ^ level

/-- `expandedCompactionByteSizeLimit`: 25 × the level's target file
size. -/
def expandedCompactionByteSizeLimit (level : Nat) : Nat := 25 * targetFileSize level

/-- Two files overlapping in user-key space (closed intervals): they
share at least one user key. -/
def fOverlaps (f g : FileMetadata) : Bool :=
  decide (f.smallest.userKey ≤ g.largest.userKey) &&
    decide (g.smallest.userKey ≤ f.largest.userKey)

/-- Two files joined by a coincident boundary user key — the atomic-unit
relation of the glossary. -/
def fTouches (f g : FileMetadata) : Bool :=
  decide (f.largest.userKey = g.smallest.userKey) ||
    decide (g.largest.userKey = f.smallest.userKey)

/-- One closure step: the files of the level that are already selected
or related to a selected file. -/
def relStep (rel : FileMetadata → FileMetadata → Bool)
    (files T : List FileMetadata) : List FileMetadata :=
  files.filter (fun g => decide (g ∈ T) || T.any (fun f => rel f g))

/-- Iterate `relStep` to a fixpoint (the fuel of `relClosure` always
suffices, as proved below). -/
def relClosureGo (rel : FileMetadata → FileMetadata → Bool)
    (files : List FileMetadata) : Nat → List FileMetadata → List FileMetadata
  | 0, T => T
  | n + 1, T =>
    let T2 := relStep rel files T
    if T2 = T then T else relClosureGo rel files n T2

/-- The closure of a seed set under a relation, within a level's file
list (selection order follows the level's order). -/
def relClosure (rel : FileMetadata → FileMetadata → Bool)
    (files T0 : List FileMetadata) : List FileMetadata :=
  relClosureGo rel files (files.length + 1) (files.filter (fun g => decide (g ∈ T0)))

/-- `Version.Overlaps` at L0 (§4.C): L0 files may overlap each other, so
the search restarts with the expanded range until a clean cut is
reached — equivalently, the result is the chain-connected overlap
closure of the files meeting `[lo, hi]`. -/
def overlapsL0 (files : List FileMetadata) (lo hi : UKey) : List FileMetadata :=
  relClosure fOverlaps files (overlapsL files lo hi)

/-- `expandInputs` (§4.F step 1): expand level inputs to a clean cut by
pulling in files whose boundary user keys coincide (atomic units).  L0
needs no expansion: its overlap computation already yields a clean
cut. -/
def expandInputs (level : Nat) (files inputs : List FileMetadata) :
    List FileMetadata :=
  if level = 0 then inputs else relClosure fTouches files inputs

/-- Smaller of two internal keys (first wins ties). -/
def ikMin (a b : InternalKey) : InternalKey := if ikCmp b a = .lt then b else a

/-- Larger of two internal keys (first wins ties). -/
def ikMax (a b : InternalKey) : InternalKey := if ikCmp a b = .lt then b else a

/-- `manifest.KeyRange`: smallest and largest internal key over a file
set (zero keys when empty). -/
def keyRange (files : List FileMetadata) : InternalKey × InternalKey :=
  match files with
  | [] => (⟨[], 0, 0⟩, ⟨[], 0, 0⟩)
  | f :: rest =>
    rest.foldl (fun acc g => (ikMin acc.1 g.smallest, ikMax acc.2 g.largest))
      (f.smallest, f.largest)

/-- `Version.Overlaps` dispatching on the level. -/
def overlapsLevel (v : Version) (level : Nat) (lo hi : UKey) : List FileMetadata :=
  if level = 0 then overlapsL0 (v.filesAt 0) lo hi
  else overlapsL (v.filesAt level) lo hi

/-- A level's input for a user-key range: overlap, then atomic-unit
expansion. -/
def levelInput (v : Version) (level : Nat) (lo hi : UKey) : List FileMetadata :=
  expandInputs level (v.filesAt level) (overlapsLevel v level lo hi)

/-- The candidate grown start-level input (§4.F step 4): the start-level
files overlapping the combined range of both input sets, atomically
expanded. -/
def growCandidate (v : Version) (startLevel : Nat) (sm la : InternalKey) :
    List FileMetadata :=
  levelInput v startLevel sm.userKey la.userKey

/-- Re-overlap of the output level against the grown start-level set's
own key range. -/
def growReOverlap (v : Version) (outputLevel : Nat)
    (g0 : List FileMetadata) : List FileMetadata :=
  expandInputs outputLevel (v.filesAt outputLevel)
    (overlapsL (v.filesAt outputLevel) (keyRange g0).1.userKey (keyRange g0).2.userKey)

/-- The grow step (§4.F step 4): accept the strictly larger candidate
iff the output-level input stays identical under re-overlap and the
total byte size stays within `expandedCompactionByteSizeLimit` of the
start level; otherwise revert (`none`). -/
def growInputs (v : Version) (startLevel outputLevel : Nat)
    (inputs0 inputs1 : List FileMetadata) (sm la : InternalKey) :
    Option (List FileMetadata × List FileMetadata) :=
  if inputs1 = [] then none
  else
    let grow0 := growCandidate v startLevel sm la
    if grow0.length ≤ inputs0.length then none
    else if expandedCompactionByteSizeLimit startLevel <
        totalSize grow0 + totalSize inputs1 then none
    else
      let grow1 := growReOverlap v outputLevel grow0
      if grow1 = inputs1 then some (grow0, grow1) else none

/-- The initial start-level input from a seed: for L0, the seed's range
regrouped by overlap (clean cut); otherwise the seed's atomic-unit
expansion. -/
def startInput (v : Version) (startLevel : Nat) (seed : List FileMetadata) :
    List FileMetadata :=
  if startLevel = 0 then
    overlapsL0 (v.filesAt 0) (keyRange seed).1.userKey (keyRange seed).2.userKey
  else expandInputs startLevel (v.filesAt startLevel) seed

/-- Per-file bounds consistency and ascending disjoint boundaries — the
shape of a well-formed level ≥ 1 (what the ordering checker enforces). -/
def boundaryOrdered : List FileMetadata → Bool
  | [] => true
  | [_] => true
  | a :: b :: rest =>
    decide (a.largest.userKey ≤ b.smallest.userKey) && boundaryOrdered (b :: rest)

/-- A level whose files have consistent user-key bounds and whose
consecutive boundaries ascend. -/
def levelWellFormed (files : List FileMetadata) : Bool :=
  files.all (fun f => decide (f.smallest.userKey ≤ f.largest.userKey)) &&
    boundaryOrdered files

/-- A shaped compaction: the final input sets, grandparents and key
range. -/
structure PickedCompaction where
  startLevel : Nat
  outputLevel : Nat
  inputs0 : List FileMetadata
  inputs1 : List FileMetadata
  grandparents : List FileMetadata
  smallest : InternalKey
  largest : InternalKey
deriving DecidableEq, Repr

/-- The input shaper `setupInputs` (§4.F): expand the seed to a clean
cut (for L0, regroup by overlap), overlap and expand the output level,
opportunistically grow, then compute grandparents from the final
range. -/
def setupInputs (v : Version) (startLevel outputLevel : Nat)
    (seed : List FileMetadata) : PickedCompaction :=
  let inputs0 := startInput v startLevel seed
  let kr1 := keyRange inputs0
  let inputs1 := expandInputs outputLevel (v.filesAt outputLevel)
    (overlapsL (v.filesAt outputLevel) kr1.1.userKey kr1.2.userKey)
  let kr2 := keyRange (inputs0 ++ inputs1)
  let grown :=
    match growInputs v startLevel outputLevel inputs0 inputs1 kr2.1 kr2.2 with
    | some g => g
    | none => (inputs0, inputs1)
  let kr := keyRange (grown.1 ++ grown.2)
  let gp :=
    if outputLevel + 1 < numLevels then
      overlapsL (v.filesAt (outputLevel + 1)) kr.1.userKey kr.2.userKey
    else []
  ⟨startLevel, outputLevel, grown.1, grown.2, gp, kr.1, kr.2⟩

/-- Seed selection (§4.E): the start-level file with the smallest
largest-key (first wins ties). -/
def seedFile (files : List FileMetadata) : Option FileMetadata :=
  match files with
  | [] => none
  | f :: rest => some (rest.foldl (fun acc g =>
      if ikCmp g.largest acc.largest = .lt then g else acc) f)

/-- `pickAuto` (§4.E), modelled from the spec: no pick below score 1 or
on an empty start level; the output level is `start + 1`, or the base
level for an L0 start. -/
def pickAuto (score level baseLevel : Nat) (v : Version) :
    Option PickedCompaction :=
  if score < 1 then none
  else
    let outputLevel := if level = 0 then baseLevel else level + 1
    match seedFile (v.filesAt level) with
    | none => none
    | some seed => some (setupInputs v level outputLevel [seed])

/-- A picker-test file: number, size and key bounds (seqnum bounds from
the keys). -/
def pickFile (n sz : Nat) (sm la : InternalKey) : FileMetadata :=
  ⟨n, sz, sm, la, sm.seqNum, la.seqNum⟩

/-- `strLe`: bytewise string order (Go's `sort.Strings`). -/
def strLe (a b : String) : Prop :=
  a.toList.map Char.toNat ≤ b.toList.map Char.toNat

instance : DecidableRel strLe :=
  fun a b => inferInstanceAs (Decidable (a.toList.map Char.toNat ≤ b.toList.map Char.toNat))

/-- The test's `fileNums` helper: decimal file numbers sorted as
strings, comma-joined. -/
def fileNums (files : List FileMetadata) : String :=
  String.intercalate ","
    (List.insertionSort strLe (files.map (fun f => toString f.fileNum)))

/-- The test's formatted pick: `inputs[0] inputs[1] grandparents`
space-separated, empty for no pick. -/
def pickResult (c : Option PickedCompaction) : String :=
  match c with
  | none => ""
  | some c =>
    fileNums c.inputs0 ++ " " ++ fileNums c.inputs1 ++ " " ++ fileNums c.grandparents

/-- The single-L0-file version of `TestPickCompaction`. -/
def pickVersion1 : Version :=
  ⟨[[pickFile 100 1 (ik "i" 101) (ik "j" 102)]]⟩

/-- Two disjoint L0 files. -/
def pickVersion2 : Version :=
  ⟨[[pickFile 100 1 (ik "i" 101) (ik "j" 102),
     pickFile 110 1 (ik "k" 111) (ik "l" 112)]]⟩

/-- Two L0 files with internal-key overlap. -/
def pickVersion3 : Version :=
  ⟨[[pickFile 100 1 (ik "i" 101) (ik "p" 102),
     pickFile 110 1 (ik "j" 111) (ik "q" 112)]]⟩

/-- S2: two L0 files with user-key overlap (both ranges [i,i]). -/
def pickVersionS2 : Version :=
  ⟨[[pickFile 100 1 (ik "i" 101) (ik "i" 102),
     pickFile 110 1 (ik "i" 111) (ik "i" 112)]]⟩

/-- One L0 file over two disjoint L1 files. -/
def pickVersion5 : Version :=
  ⟨[[pickFile 100 1 (ik "i" 101) (ik "i" 102)],
    [pickFile 200 1 (ik "a" 201) (ik "b" 202),
     pickFile 210 1 (ik "y" 211) (ik "z" 212)]]⟩

/-- One L0 file, two L1 files (one overlap), four L2 files (three
overlaps, the grandparents). -/
def pickVersion6 : Version :=
  ⟨[[pickFile 100 1 (ik "i" 101) (ik "t" 102)],
    [pickFile 200 1 (ik "a" 201) (ik "e" 202),
     pickFile 210 1 (ik "f" 211) (ik "j" 212)],
    [pickFile 300 1 (ik "a" 301) (ik "b" 302),
     pickFile 310 1 (ik "c" 311) (ik "g" 312),
     pickFile 320 1 (ik "h" 321) (ik "m" 322),
     pickFile 330 1 (ik "n" 331) (ik "z" 332)]]⟩

/-- The grow layout: four adjacent L1 files, two L2 files, with the L2
split at l0/l2 so growing to {200,210,220} keeps inputs[1] = {300}. -/
def pickVersionGrow (szL1 szL2 : Nat) : Version :=
  ⟨[[],
    [pickFile 200 szL1 (ik "i1" 201) (ik "i2" 202),
     pickFile 210 szL1 (ik "j1" 211) (ik "j2" 212),
     pickFile 220 szL1 (ik "k1" 221) (ik "k2" 222),
     pickFile 230 szL1 (ik "l1" 231) (ik "l2" 232)],
    [pickFile 300 szL2 (ik "a0" 301) (ik "l0" 302),
     pickFile 310 szL2 (ik "l2" 311) (ik "z2" 312)]]⟩

/-- The can't-grow-by-range layout: the L2 split at j0/j2 stops the
growth at {200}. -/
def pickVersionGrowRange : Version :=
  ⟨[[],
    [pickFile 200 1 (ik "i1" 201) (ik "i2" 202),
     pickFile 210 1 (ik "j1" 211) (ik "j2" 212),
     pickFile 220 1 (ik "k1" 221) (ik "k2" 222),
     pickFile 230 1 (ik "l1" 231) (ik "l2" 232)],
    [pickFile 300 1 (ik "a0" 301) (ik "j0" 302),
     pickFile 310 1 (ik "j2" 311) (ik "z2" 312)]]⟩

/-- S3: the grow layout with every L1 file of size
`expandedCompactionByteSizeLimit(1) − 1` and every L2 file of size
`expandedCompactionByteSizeLimit(2) − 1`; growth is refused on size. -/
def pickVersionS3 : Version :=
  pickVersionGrow (expandedCompactionByteSizeLimit 1 - 1)
    (expandedCompactionByteSizeLimit 2 - 1)

/-- The grow layout with size-1 files: growth is accepted. -/
def pickVersionS3small : Version := pickVersionGrow 1 1

/-- The compaction picked on the S2 version (seed = file 110, the file
with the smallest largest-key). -/
def pickedS2 : PickedCompaction :=
  setupInputs pickVersionS2 0 1 [pickFile 110 1 (ik "i" 111) (ik "i" 112)]

/-! ### Flush invariant

Modelled from the spec (§7 "Flush-invariant violation"): the flush path
is absent from the sources; `TestFlushInvariant` pins the behaviour
modelled here. -/

/-- A queued memtable, reduced to the WAL log number it references. -/
structure MemTable where
  logNum : Nat
deriving DecidableEq, Repr

/-- The engine state consulted by the flush-invariant check: the
memtables about to be flushed, the next file number (which becomes the
new WAL's log number at rotation), and the WAL switch. -/
structure FlushState where
  queue : List MemTable
  nextFileNum : Nat
  disableWAL : Bool
deriving DecidableEq, Repr

/-- A flush outcome: the error handed to the `BackgroundError` event
listener, if any, and whether the flush completed. -/
structure FlushOutcome where
  backgroundError : Option String
  flushed : Bool
deriving DecidableEq, Repr

/-- The fatal flush-invariant error. -/
def errFlushInvariant : String := "pebble: flush next log number is unset"

/-- Modelled from the spec: run a flush.  The new WAL is assigned log
number `nextFileNum`; every memtable being flushed must reference a
strictly older log.  With the WAL enabled a violation is a fatal
background error reported through the event listener and the flush does
not complete; with the WAL disabled the check is skipped. -/
def runFlush (s : FlushState) : FlushOutcome :=
  if s.disableWAL then ⟨none, true⟩
  else if s.queue.any (fun m => decide (s.nextFileNum ≤ m.logNum)) then
    ⟨some errFlushInvariant, false⟩
  else ⟨none, true⟩

/-! ### Manual-compaction coordination

Modelled from the spec (§4.E "Manual compaction", §4.I): the coordinator
is absent from the sources; `TestManualCompaction`'s async-compact
command pins the observations modelled here (`retries > 0` while
blocked; install only after the ongoing compaction is removed). -/

/-- An in-progress compaction: an identifier and the files it owns. -/
structure OwnedCompaction where
  cid : Nat
  files : List FileMetadata
deriving DecidableEq, Repr

/-- A queued manual compaction: identifier, target user-key range and
the retries counter the tests observe. -/
structure ManualCompaction where
  mid : Nat
  lo : UKey
  hi : UKey
  retries : Nat
deriving DecidableEq, Repr

/-- Whether a manual compaction's target range overlaps a file owned by
an in-progress compaction. -/
def manualConflicts (x : OwnedCompaction) (m : ManualCompaction) : Bool :=
  x.files.any (fun f =>
    decide (m.lo ≤ f.largest.userKey) && decide (f.smallest.userKey ≤ m.hi))

/-- Coordinator state: the in-progress set, the manual queue, and the
identifiers of installed manual compactions in install order. -/
structure Coord where
  inProgress : List OwnedCompaction
  manual : List ManualCompaction
  installed : List Nat
deriving DecidableEq, Repr

/-- Modelled from the spec: one scheduling step.  The head manual
compaction either conflicts with an in-progress compaction — then it is
re-queued with `retries + 1` and nothing is started or failed — or it
runs to completion and its new version is installed. -/
def coordStep (st : Coord) : Coord :=
  match st.manual with
  | [] => st
  | m :: rest =>
    if st.inProgress.any (fun x => manualConflicts x m) then
      { st with manual := { m with retries := m.retries + 1 } :: rest }
    else
      { st with manual := rest, installed := st.installed ++ [m.mid] }

/-- Coordinator events: a scheduling step, or an in-progress compaction
finishing and being removed from the in-progress set. -/
inductive CoordEvent
  | step
  | remove (cid : Nat)
deriving DecidableEq, Repr

/-- Apply one coordinator event. -/
def coordApply (st : Coord) : CoordEvent → Coord
  | .step => coordStep st
  | .remove cid => { st with inProgress := st.inProgress.filter (fun x => x.cid != cid) }

/-- Run a list of coordinator events. -/
def coordRun (st : Coord) : List CoordEvent → Coord
  | [] => st
  | e :: es => coordRun (coordApply st e) es

/-- The ongoing compaction of the concrete scenario: it owns a file over
[a,c]. -/
def coordX : OwnedCompaction := ⟨1, [mkF0 (ik "a" 0) (ik "c" 0)]⟩

/-- The manual compaction of the concrete scenario: range [a,b],
overlapping the ongoing compaction's file. -/
def coordM : ManualCompaction := ⟨7, uk "a", uk "b", 0⟩

/-- The initial coordinator state of the concrete scenario. -/
def coordInit : Coord := ⟨[coordX], [coordM], []⟩

/-! ### Validation of the checker model against the
`version_check_ordering` testdata (every case of the file). -/

theorem testdata_l0_simple :
    checkResult (vL0 [mkFile 1 (ik "a" 1) (ik "b" 2)]) = none ∧
    checkResult (vL0 [mkFile 1 (ik "a" 1) (ik "b" 2), mkFile 2 (ik "c" 3) (ik "d" 4)]) = none ∧
    checkResult (vL0 [mkFile 1 (ik "c" 3) (ik "d" 4), mkFile 2 (ik "a" 1) (ik "b" 2)]) =
      some "L0 files 000001 and 000002 are not properly ordered: <#3-#4> vs <#1-#2>" := by
  decide

theorem testdata_l0_overlapping_seqnums :
    checkResult (vL0 [mkFile 1 (ik "c" 3) (ik "d" 4),
                      mkFile 2 (ik "a" 1) (ik "b" 5),
                      mkFile 3 (ik "e" 2) (ik "f" 7),
                      mkFile 4 (ik "g" 6) (ik "h" 12),
                      mkFile 5 (ik "i" 8) (ik "j" 13),
                      mkFile 6 (ik "b" 15) (ik "d" 15),
                      mkFile 7 (ik "a" 14) (ik "j" 17),
                      mkFile 8 (ik "k" 16) (ik "n" 19)]) = none ∧
    checkResult (vL0 (l0IngestCase 14)) = none ∧
    checkResult (vL0 (l0IngestCase 15)) =
      some ("L0 flushed file 000007 has smallest sequence number coincident with an " ++
        "ingested file : <#15-#17> vs <#15-#15>") := by
  decide

theorem testdata_l0_pairs :
    checkResult (vL0 [mkFile 1 (ik "a" 3) (ik "d" 3), mkFile 2 (ik "a" 1) (ik "b" 2)]) =
      some "L0 files 000001 and 000002 are not properly ordered: <#3-#3> vs <#1-#2>" ∧
    checkResult (vL0 [mkFile 1 (ik "a" 2) (ik "d" 4), mkFile 2 (ik "a" 3) (ik "b" 3)]) =
      some "L0 files 000001 and 000002 are not properly ordered: <#2-#4> vs <#3-#3>" ∧
    checkResult (vL0 [mkFile 1 (ik "a" 3) (ik "d" 3), mkFile 2 (ik "a" 3) (ik "b" 3)]) =
      some "L0 file 000002 does not have strictly increasing largest seqnum: <#3-#3> vs <?-#3>" ∧
    checkResult (vL0 [mkFile 1 (ik "a" 3) (ik "d" 3), mkFile 2 (ik "a" 3) (ik "d" 5)]) =
      some ("L0 flushed file 000002 has smallest sequence number coincident with an " ++
        "ingested file : <#3-#5> vs <#3-#3>") ∧
    checkResult (vL0 [mkFile 1 (ik "a" 4) (ik "d" 4), mkFile 2 (ik "a" 3) (ik "d" 5)]) = none ∧
    checkResult (vL0 [mkFile 1 (ik "a" 3) (ik "d" 5), mkFile 2 (ik "a" 5) (ik "d" 5)]) =
      some "L0 file 000002 does not have strictly increasing largest seqnum: <#5-#5> vs <?-#5>" ∧
    checkResult (vL0 [mkFile 1 (ik "a" 4) (ik "d" 4),
                      mkFile 2 (ik "a" 5) (ik "d" 5),
                      mkFile 3 (ik "a" 4) (ik "d" 6)]) =
      some ("L0 flushed file 000003 has smallest sequence number coincident with an " ++
        "ingested file : <#4-#6> vs <#4-#4>") ∧
    checkResult (vL0 [mkFile 1 (ik "a" 0) (ik "d" 0),
                      mkFile 2 (ik "a" 0) (ik "d" 0),
                      mkFile 3 (ik "a" 0) (ik "d" 3)]) = none := by
  decide

theorem testdata_ln_cases :
    checkResult (vL1 [mkFile 1 (ik "a" 1) (ik "b" 2)]) = none ∧
    checkResult (vL1 [mkFile 1 (ik "b" 1) (ik "a" 2)]) =
      some "L1 file 000001 has inconsistent bounds: b#1,SET vs a#2,SET" ∧
    checkResult (vL1 [mkFile 1 (ik "a" 1) (ik "b" 2), mkFile 2 (ik "c" 3) (ik "d" 4)]) = none ∧
    checkResult (vL1 [mkFile 1 (ik "a" 1) (ik "b" 2), mkFile 2 (ik "d" 3) (ik "c" 4)]) =
      some "L1 file 000002 has inconsistent bounds: d#3,SET vs c#4,SET" ∧
    checkResult (vL1 [mkFile 1 (ik "a" 1) (ik "b" 2), mkFile 2 (ik "b" 1) (ik "d" 4)]) = none ∧
    checkResult (vL1 [mkFile 1 (ik "a" 1) (ik "b" 2), mkFile 2 (ik "b" 2) (ik "d" 4)]) =
      some ("L1 files 000001 and 000002 have overlapping ranges: " ++
        "[a#1,SET-b#2,SET] vs [b#2,SET-d#4,SET]") ∧
    checkResult (vL1 [mkFile 1 (ik "a" 1) (ik "c" 2), mkFile 2 (ik "b" 3) (ik "d" 4)]) =
      some ("L1 files 000001 and 000002 have overlapping ranges: " ++
        "[a#1,SET-c#2,SET] vs [b#3,SET-d#4,SET]") ∧
    checkResult (vL12 [mkFile 1 (ik "a" 1) (ik "c" 2)] [mkFile 2 (ik "b" 3) (ik "d" 4)]) =
      none ∧
    checkResult (vL12 [mkFile 1 (ik "a" 1) (ik "c" 2)]
                      [mkFile 2 (ik "b" 3) (ik "d" 4), mkFile 3 (ik "c" 5) (ik "e" 6)]) =
      some ("L2 files 000002 and 000003 have overlapping ranges: " ++
        "[b#3,SET-d#4,SET] vs [c#5,SET-e#6,SET]") := by
  decide

/-! ### Soundness of the L0 scan: an accepted list is free of nonzero
ingest/flush seqnum coincidences. -/

theorem mem_ingUpdate (ing : List FileMetadata) (f g : FileMetadata) (h : g ∈ ing) :
    g ∈ ingUpdate ing f := by
  unfold ingUpdate
  split
  · exact List.mem_append_left _ h
  · exact h

theorem self_mem_ingUpdate (ing : List FileMetadata) (f : FileMetadata)
    (h1 : isIngested f = true) (h2 : f.largestSeqNum ≠ 0) :
    f ∈ ingUpdate ing f := by
  unfold ingUpdate
  rw [if_pos (by simp [h1, bne_iff_ne, h2])]
  exact List.mem_append_right _ (by simp)

theorem l0Go_ok_sound (files : List FileMetadata) :
    ∀ (ing : List FileMetadata) (prev? : Option FileMetadata),
      l0Go ing prev? files = .ok () →
      (∀ g ∈ ing, ∀ ys f zs, files = ys ++ f :: zs →
        f.smallestSeqNum < f.largestSeqNum → f.smallestSeqNum ≠ g.largestSeqNum) ∧
      (∀ xs g ys f zs, files = xs ++ g :: ys ++ f :: zs →
        isIngested g = true → g.largestSeqNum ≠ 0 →
        f.smallestSeqNum < f.largestSeqNum → f.smallestSeqNum ≠ g.largestSeqNum) := by
  induction files with
  | nil =>
    intro ing prev? _
    refine ⟨?_, ?_⟩
    · intro g hg ys f zs heq
      cases ys <;> simp at heq
    · intro xs g ys f zs heq
      cases xs <;> simp at heq
  | cons f0 rest ih =>
    intro ing prev? h
    have hstep : l0Go ing prev? (f0 :: rest) =
        match (match prev? with
               | none => none
               | some prev => l0PairCheck prev f0) with
        | some e => .error e
        | none =>
          match l0CoincCheck ing f0 with
          | some e => .error e
          | none => l0Go (ingUpdate ing f0) (some f0) rest := rfl
    rw [hstep] at h
    cases hpc : (match prev? with | none => none | some prev => l0PairCheck prev f0) with
    | some e => rw [hpc] at h; simp at h
    | none =>
      rw [hpc] at h
      cases hcc : l0CoincCheck ing f0 with
      | some e => rw [hcc] at h; simp at h
      | none =>
        rw [hcc] at h
        obtain ⟨ihA, ihB⟩ := ih (ingUpdate ing f0) (some f0) h
        refine ⟨?_, ?_⟩
        · intro g hg ys f zs heq hfl
          cases ys with
          | nil =>
            injection heq with h1 h2
            subst h1
            simp only [l0CoincCheck] at hcc
            rw [if_pos hfl] at hcc
            cases hfind : List.find? (fun g => g.largestSeqNum == f0.smallestSeqNum) ing with
            | some gx => rw [hfind] at hcc; simp at hcc
            | none =>
              intro hEq
              exact List.find?_eq_none.mp hfind g hg (beq_iff_eq.mpr hEq.symm)
          | cons y ys2 =>
            injection heq with h1 h2
            exact ihA g (mem_ingUpdate _ _ _ hg) ys2 f zs h2 hfl
        · intro xs g ys f zs heq hing hnz hfl
          cases xs with
          | nil =>
            injection heq with h1 h2
            subst h1
            exact ihA f0 (self_mem_ingUpdate _ _ hing hnz) ys f zs h2 hfl
          | cons x xs2 =>
            injection heq with h1 h2
            exact ihB xs2 g ys f zs h2 hing hnz hfl

theorem checkOrdering_vL1_pair (f1 f2 : FileMetadata)
    (hb1 : ¬ ikCmp f1.smallest f1.largest = .gt)
    (hb2 : ¬ ikCmp f2.smallest f2.largest = .gt) :
    checkOrdering (vL1 [f1, f2]) =
      match lnPairCheck 1 f1 f2 with
      | some e => .error e
      | none => .ok () := by
  have h4 : lnCheck 1 [f1, f2] =
      (match lnPairCheck 1 f1 f2 with
       | some e => Except.error e
       | none => Except.ok ()) := by
    simp only [lnCheck, lnGo]
    rw [if_neg hb1, if_neg hb2]
  show (match lnCheck 1 [f1, f2] with
        | .error e => Except.error e
        | .ok _ => checkLevels (vL1 [f1, f2]) [2, 3, 4, 5, 6]) = _
  rw [h4]
  cases lnPairCheck 1 f1 f2 with
  | none => rfl
  | some e => rfl

/-- C4 (amended): if the L0 list of a version contains an ingested file
with nonzero single seqnum followed (later in the list) by a flushed
file whose smallest seqnum coincides with it, the ordering checker
rejects the version; at the testdata input with windows <#15-#17> and
<#15-#15> the diagnostic is exactly "L0 flushed file 000007 has smallest
sequence number coincident with an ingested file : <#15-#17> vs
<#15-#15>".  (The nonzero proviso is forced by the all-zero
counterexample, which the checker accepts.) -/
theorem c4_coincident_seqnum_rejected (v : Version) (xs ys zs : List FileMetadata)
    (g f : FileMetadata)
    (hsplit : v.filesAt 0 = xs ++ g :: ys ++ f :: zs)
    (hing : isIngested g = true) (hnz : g.largestSeqNum ≠ 0)
    (hfl : f.smallestSeqNum < f.largestSeqNum)
    (hco : f.smallestSeqNum = g.largestSeqNum) :
    checkOrdering v ≠ .ok () ∧
    checkResult (vL0 (l0IngestCase 15)) =
      some ("L0 flushed file 000007 has smallest sequence number coincident with an " ++
        "ingested file : <#15-#17> vs <#15-#15>") := by
  refine ⟨?_, by decide⟩
  intro hok
  have hl0 : l0Check (v.filesAt 0) = .ok () := by
    unfold checkOrdering at hok
    cases hc : l0Check (v.filesAt 0) with
    | error e => rw [hc] at hok; simp at hok
    | ok u => cases u; rfl
  unfold l0Check at hl0
  exact (l0Go_ok_sound (v.filesAt 0) [] none hl0).2 xs g ys f zs hsplit hing hnz hfl hco

theorem c4_witness :
    checkOrdering (vL0 (l0IngestCase 15)) ≠ .ok () ∧
    checkResult (vL0 (l0IngestCase 15)) =
      some ("L0 flushed file 000007 has smallest sequence number coincident with an " ++
        "ingested file : <#15-#17> vs <#15-#15>") :=
  c4_coincident_seqnum_rejected (vL0 (l0IngestCase 15))
    [mkFile 1 (ik "c" 3) (ik "d" 4), mkFile 2 (ik "a" 1) (ik "b" 5),
     mkFile 3 (ik "e" 2) (ik "f" 7), mkFile 4 (ik "g" 6) (ik "h" 12),
     mkFile 5 (ik "i" 8) (ik "j" 13)]
    []
    [mkFile 8 (ik "m" 18) (ik "n" 18), mkFile 9 (ik "k" 16) (ik "n" 19),
     mkFile 10 (ik "m" 20) (ik "n" 20)]
    (mkFile 6 (ik "b" 15) (ik "d" 15)) (mkFile 7 (ik "a" 15) (ik "j" 17))
    (by decide) (by decide) (by decide) (by decide) (by decide)

/-- C4 counterexample: the all-zero testdata layout contains an ingested
file (seqnum window <#0-#0>) and a later flushed file (<#0-#3>) whose
smallest seqnum equals the ingested file's single seqnum, yet the
ordering checker accepts the version — the claim's unconditional
rejection does not hold. -/
theorem c4_counterexample :
    l0ZeroCase = [mkFile 1 (ik "a" 0) (ik "d" 0), mkFile 2 (ik "a" 0) (ik "d" 0),
                  mkFile 3 (ik "a" 0) (ik "d" 3)] ∧
    isIngested (mkFile 1 (ik "a" 0) (ik "d" 0)) = true ∧
    (mkFile 3 (ik "a" 0) (ik "d" 3)).smallestSeqNum <
      (mkFile 3 (ik "a" 0) (ik "d" 3)).largestSeqNum ∧
    (mkFile 3 (ik "a" 0) (ik "d" 3)).smallestSeqNum =
      (mkFile 1 (ik "a" 0) (ik "d" 0)).largestSeqNum ∧
    checkOrdering (vL0 l0ZeroCase) = .ok () := by
  decide

/-- C5: at level ≥ 1, two adjacent files with consistent bounds whose
key ranges touch at a single user key pass the ordering check iff the
earlier file's largest internal key has strictly higher seqnum than the
later file's smallest; with equal seqnums the checker reports exactly
"L1 files 000001 and 000002 have overlapping ranges: [a#1,SET-b#2,SET]
vs [b#2,SET-d#4,SET]", while [a#1,SET-b#2,SET],[b#1,SET-d#4,SET]
passes. -/
theorem c5_touching_pass_iff_higher_seqnum (f1 f2 : FileMetadata)
    (hb1 : ¬ ikCmp f1.smallest f1.largest = .gt)
    (hb2 : ¬ ikCmp f2.smallest f2.largest = .gt)
    (ht : f1.largest.userKey = f2.smallest.userKey) :
    (checkOrdering (vL1 [f1, f2]) = .ok () ↔ f2.smallest.seqNum < f1.largest.seqNum) ∧
    checkResult (vL1 [mkFile 1 (ik "a" 1) (ik "b" 2), mkFile 2 (ik "b" 2) (ik "d" 4)]) =
      some ("L1 files 000001 and 000002 have overlapping ranges: " ++
        "[a#1,SET-b#2,SET] vs [b#2,SET-d#4,SET]") ∧
    checkOrdering (vL1 [mkFile 1 (ik "a" 1) (ik "b" 2), mkFile 2 (ik "b" 1) (ik "d" 4)]) =
      .ok () := by
  refine ⟨?_, by decide, by decide⟩
  rw [checkOrdering_vL1_pair f1 f2 hb1 hb2]
  unfold lnPairCheck
  rw [if_neg (by rw [ht]; exact lt_irrefl _)]
  by_cases hs : f2.smallest.seqNum < f1.largest.seqNum
  · rw [if_neg (fun hcon => hcon.2 hs)]
    simp [hs]
  · rw [if_pos ⟨ht, hs⟩]
    simp [hs]

theorem c5_witness :
    (checkOrdering (vL1 [mkFile 1 (ik "a" 1) (ik "b" 2), mkFile 2 (ik "b" 2) (ik "d" 4)]) =
        .ok () ↔
      (mkFile 2 (ik "b" 2) (ik "d" 4)).smallest.seqNum <
        (mkFile 1 (ik "a" 1) (ik "b" 2)).largest.seqNum) ∧
    checkResult (vL1 [mkFile 1 (ik "a" 1) (ik "b" 2), mkFile 2 (ik "b" 2) (ik "d" 4)]) =
      some ("L1 files 000001 and 000002 have overlapping ranges: " ++
        "[a#1,SET-b#2,SET] vs [b#2,SET-d#4,SET]") ∧
    checkOrdering (vL1 [mkFile 1 (ik "a" 1) (ik "b" 2), mkFile 2 (ik "b" 1) (ik "d" 4)]) =
      .ok () :=
  c5_touching_pass_iff_higher_seqnum _ _ (by decide) (by decide) (by decide)

/-- C9: the L0 checker exempts files whose largest seqnum is zero both
from the strictly-increasing-largest-seqnum rule (a pair of all-zero
windows passes) and from the coincident-seqnum rejection (zero-seqnum
ingested files are not recorded); the all-zero layout
[a#0-d#0],[a#0-d#0],[a#0-d#3] is accepted while the same shape shifted
to nonzero seqnums is rejected. -/
theorem c9_zero_seqnum_exempt :
    (∀ prev f : FileMetadata, prev.largestSeqNum = 0 → f.largestSeqNum = 0 →
      l0PairCheck prev f = none) ∧
    (∀ (ing : List FileMetadata) (f : FileMetadata), f.largestSeqNum = 0 →
      ingUpdate ing f = ing) ∧
    checkOrdering (vL0 l0ZeroCase) = .ok () ∧
    checkResult (vL0 l0ZeroCaseShifted) =
      some "L0 file 000002 does not have strictly increasing largest seqnum: <#4-#4> vs <?-#4>" := by
  refine ⟨?_, ?_, by decide, by decide⟩
  · intro prev f h1 h2
    unfold l0PairCheck
    rw [if_pos ⟨h1, h2⟩]
  · intro ing f h
    unfold ingUpdate
    rw [if_neg (by simp [h])]

theorem c9_witness :
    l0PairCheck (mkFile 1 (ik "a" 0) (ik "d" 0)) (mkFile 2 (ik "a" 0) (ik "d" 0)) = none ∧
    ingUpdate [] (mkFile 1 (ik "a" 0) (ik "d" 0)) = [] ∧
    checkOrdering (vL0 l0ZeroCase) = .ok () :=
  ⟨c9_zero_seqnum_exempt.1 _ _ rfl rfl,
   c9_zero_seqnum_exempt.2.1 [] _ rfl,
   c9_zero_seqnum_exempt.2.2.1⟩

/-! ### Validation of the elision model against `TestElideTombstone`
and `TestElideRangeTombstone` (every expectation of the tests). -/

theorem elide_tombstone_testdata_empty :
    elideTombstone elideEmptyC (uk "x") = true := by decide

theorem elide_tombstone_testdata_nonempty :
    ([("b", true), ("c", true), ("d", true), ("e", true), ("f", false),
      ("g", false), ("h", false), ("l", false), ("m", false), ("n", true),
      ("q", true), ("r", true), ("s", true), ("t", false), ("u", true),
      ("v", true), ("w", false), ("x", false), ("y", true), ("z", true)] :
        List (String × Bool)).all
      (fun w => elideTombstone elideC6 (uk w.1) == w.2) = true := by decide

theorem elide_tombstone_testdata_repeated :
    ([("h", true), ("i", false), ("j", false), ("k", false), ("l", false),
      ("m", false), ("n", true)] : List (String × Bool)).all
      (fun w => elideTombstone elideRepeatC (uk w.1) == w.2) = true := by decide

theorem elide_range_tombstone_testdata :
    elideRangeTombstone elideEmptyC (uk "x") (uk "y") = true ∧
    ([("b", "c", true), ("c", "d", true), ("d", "e", true), ("e", "f", false),
      ("f", "g", false), ("g", "h", false), ("h", "i", false), ("l", "m", false),
      ("m", "n", false), ("n", "o", true), ("q", "r", true), ("r", "s", true),
      ("s", "t", false), ("t", "u", false), ("u", "v", true), ("v", "w", false),
      ("w", "x", false), ("x", "y", false), ("y", "z", true)] :
        List (String × String × Bool)).all
      (fun w => elideRangeTombstone elideC6 (uk w.1) (uk w.2.1) == w.2.2) = true ∧
    elideRangeTombstone elideFlushC (uk "m") (uk "n") = false := by decide

/-! ### Coverage equivalence: the merged in-use list covers exactly the
user keys covered by some file beneath the output level. -/

theorem coverList_cons (r : KeyRange) (rs : List KeyRange) (k : UKey) :
    coverList (r :: rs) k ↔ covers r k ∨ coverList rs k := by
  simp [coverList]

theorem coverList_perm {rs rs2 : List KeyRange} (h : rs.Perm rs2) (k : UKey) :
    coverList rs k ↔ coverList rs2 k := by
  unfold coverList
  constructor
  · rintro ⟨r, hm, hc⟩; exact ⟨r, h.mem_iff.mp hm, hc⟩
  · rintro ⟨r, hm, hc⟩; exact ⟨r, h.mem_iff.mpr hm, hc⟩

theorem mergeGo_cover (k : UKey) (rest : List KeyRange) :
    ∀ cur : KeyRange, cur.start ≤ cur.stop →
      (∀ r ∈ rest, r.start ≤ r.stop) →
      List.Sorted krLe (cur :: rest) →
      (coverList (mergeGo cur rest) k ↔ covers cur k ∨ coverList rest k) := by
  induction rest with
  | nil =>
    intro cur _ _ _
    simp [mergeGo, coverList, covers]
  | cons s rest ih =>
    intro cur hcur hwf hsorted
    have hs : s.start ≤ s.stop := hwf s (by simp)
    have hrest : ∀ r ∈ rest, r.start ≤ r.stop := fun r hr => hwf r (by simp [hr])
    have hsorted2 : List.Sorted krLe (s :: rest) := hsorted.of_cons
    have hcs : cur.start ≤ s.start := (List.sorted_cons.mp hsorted).1 s (by simp)
    have hstarts : ∀ b ∈ rest, s.start ≤ b.start :=
      fun b hb => (List.sorted_cons.mp hsorted2).1 b hb
    rw [mergeGo]
    by_cases h1 : cur.stop < s.start
    · rw [if_pos h1, coverList_cons, ih s hs hrest hsorted2, coverList_cons]
    · rw [if_neg h1]
      by_cases h2 : cur.stop < s.stop
      · rw [if_pos h2]
        have hwf2 : (⟨cur.start, s.stop⟩ : KeyRange).start ≤ (⟨cur.start, s.stop⟩ : KeyRange).stop :=
          le_trans hcur (le_of_lt h2)
        have hsorted3 : List.Sorted krLe (⟨cur.start, s.stop⟩ :: rest) := by
          rw [List.sorted_cons]
          exact ⟨fun b hb => le_trans hcs (hstarts b hb), hsorted2.of_cons⟩
        rw [ih ⟨cur.start, s.stop⟩ hwf2 hrest hsorted3, coverList_cons]
        have hunion : covers ⟨cur.start, s.stop⟩ k ↔ covers cur k ∨ covers s k := by
          unfold covers
          constructor
          · rintro ⟨ha, hb⟩
            by_cases hk : k ≤ cur.stop
            · exact Or.inl ⟨ha, hk⟩
            · exact Or.inr ⟨le_trans (not_lt.mp h1) (le_of_lt (not_le.mp hk)), hb⟩
          · rintro (⟨ha, hb⟩ | ⟨ha, hb⟩)
            · exact ⟨ha, le_trans hb (le_of_lt h2)⟩
            · exact ⟨le_trans hcs ha, hb⟩
        tauto
      · rw [if_neg h2]
        have hsorted4 : List.Sorted krLe (cur :: rest) := by
          rw [List.sorted_cons]
          exact ⟨fun b hb => le_trans hcs (hstarts b hb), hsorted2.of_cons⟩
        rw [ih cur hcur hrest hsorted4, coverList_cons]
        have hnest : covers s k → covers cur k := by
          rintro ⟨ha, hb⟩
          exact ⟨le_trans hcs ha, le_trans hb (not_lt.mp h2)⟩
        tauto

theorem mergeGo_wf (rest : List KeyRange) :
    ∀ cur : KeyRange, cur.start ≤ cur.stop →
      (∀ r ∈ rest, r.start ≤ r.stop) →
      ∀ r ∈ mergeGo cur rest, r.start ≤ r.stop := by
  induction rest with
  | nil =>
    intro cur hcur _ r hr
    simp [mergeGo] at hr
    rw [hr]; exact hcur
  | cons s rest ih =>
    intro cur hcur hwf r hr
    have hs : s.start ≤ s.stop := hwf s (by simp)
    have hrest : ∀ x ∈ rest, x.start ≤ x.stop := fun x hx => hwf x (by simp [hx])
    rw [mergeGo] at hr
    by_cases h1 : cur.stop < s.start
    · rw [if_pos h1] at hr
      rcases List.mem_cons.mp hr with h | h
      · rw [h]; exact hcur
      · exact ih s hs hrest r h
    · rw [if_neg h1] at hr
      by_cases h2 : cur.stop < s.stop
      · rw [if_pos h2] at hr
        exact ih ⟨cur.start, s.stop⟩ (le_trans hcur (le_of_lt h2)) hrest r hr
      · rw [if_neg h2] at hr
        exact ih cur hcur hrest r hr

theorem mergeRanges_cover (k : UKey) (rs : List KeyRange)
    (hwf : ∀ r ∈ rs, r.start ≤ r.stop) (hs : List.Sorted krLe rs) :
    coverList (mergeRanges rs) k ↔ coverList rs k := by
  cases rs with
  | nil => exact Iff.rfl
  | cons r rest =>
    rw [mergeRanges, mergeGo_cover k rest r (hwf r (by simp))
      (fun x hx => hwf x (by simp [hx])) hs, coverList_cons]

theorem mergeRanges_wf (rs : List KeyRange)
    (hwf : ∀ r ∈ rs, r.start ≤ r.stop) :
    ∀ r ∈ mergeRanges rs, r.start ≤ r.stop := by
  cases rs with
  | nil => intro r hr; simp [mergeRanges] at hr
  | cons x rest =>
    exact mergeGo_wf rest x (hwf x (by simp)) (fun y hy => hwf y (by simp [hy]))

theorem setupInuse_cover (c : Compaction) (k : UKey)
    (hwf : ∀ r ∈ collectInuse c, r.start ≤ r.stop) :
    coverList (setupInuseKeyRanges c) k ↔ coverList (collectInuse c) k := by
  unfold setupInuseKeyRanges
  have hperm := List.perm_insertionSort krLe (collectInuse c)
  rw [mergeRanges_cover k _ (fun r hr => hwf r (hperm.mem_iff.mp hr))
    (List.sorted_insertionSort krLe _)]
  exact coverList_perm hperm k

theorem setupInuse_wf (c : Compaction)
    (hwf : ∀ r ∈ collectInuse c, r.start ≤ r.stop) :
    ∀ r ∈ setupInuseKeyRanges c, r.start ≤ r.stop := by
  unfold setupInuseKeyRanges
  have hperm := List.perm_insertionSort krLe (collectInuse c)
  exact mergeRanges_wf _ (fun r hr => hwf r (hperm.mem_iff.mp hr))

theorem mem_collectInuse (c : Compaction) (r : KeyRange) :
    r ∈ collectInuse c ↔
      ∃ l ∈ inuseLevels c.outputLevel,
        ∃ f ∈ overlapsL (c.version.filesAt l) c.smallest.userKey c.largest.userKey,
          (⟨f.smallest.userKey, f.largest.userKey⟩ : KeyRange) = r := by
  unfold collectInuse
  generalize inuseLevels c.outputLevel = ls
  induction ls with
  | nil => simp
  | cons l ls ih => simp [List.mem_append, ih, List.mem_map]

theorem collect_wf (c : Compaction)
    (hwf : ∀ l ∈ List.range numLevels, inuseStartLevel c.outputLevel ≤ l →
      ∀ f ∈ c.version.filesAt l, f.smallest.userKey ≤ f.largest.userKey) :
    ∀ r ∈ collectInuse c, r.start ≤ r.stop := by
  intro r hr
  rw [mem_collectInuse] at hr
  obtain ⟨l, hl, f, hf, heq⟩ := hr
  have hl2 := List.mem_filter.mp hl
  have := hwf l hl2.1 (of_decide_eq_true hl2.2) f (List.mem_filter.mp hf).1
  rw [← heq]
  exact this

theorem collect_cover (c : Compaction) (k : UKey)
    (hb : ∀ l ∈ List.range numLevels, inuseStartLevel c.outputLevel ≤ l →
      ∀ f ∈ c.version.filesAt l,
        c.smallest.userKey ≤ f.largest.userKey ∧ f.smallest.userKey ≤ c.largest.userKey) :
    coverList (collectInuse c) k ↔ inUseBelow c k := by
  unfold coverList inUseBelow
  constructor
  · rintro ⟨r, hr, hcov⟩
    rw [mem_collectInuse] at hr
    obtain ⟨l, hl, f, hf, heq⟩ := hr
    have hl2 := List.mem_filter.mp hl
    refine ⟨l, hl2.1, of_decide_eq_true hl2.2, f, (List.mem_filter.mp hf).1, ?_⟩
    rw [← heq] at hcov
    exact hcov
  · rintro ⟨l, hl, hsl, f, hf, h1, h2⟩
    refine ⟨⟨f.smallest.userKey, f.largest.userKey⟩, ?_, h1, h2⟩
    rw [mem_collectInuse]
    refine ⟨l, List.mem_filter.mpr ⟨hl, decide_eq_true hsl⟩, f, ?_, rfl⟩
    refine List.mem_filter.mpr ⟨hf, ?_⟩
    have := hb l hl hsl f hf
    simp [this.1, this.2]

theorem all_outside_iff (rs : List KeyRange) (k : UKey) :
    (rs.all (fun r => !(decide (r.start ≤ k) && decide (k ≤ r.stop))) = true) ↔
      ¬ coverList rs k := by
  rw [List.all_eq_true]
  unfold coverList covers
  constructor
  · rintro h ⟨r, hr, h1, h2⟩
    have := h r hr
    simp [h1, h2] at this
  · intro h r hr
    by_contra hc
    simp only [Bool.not_eq_true, Bool.not_eq_false', Bool.and_eq_true,
      decide_eq_true_eq] at hc
    exact h ⟨r, hr, hc.1, hc.2⟩

theorem all_disjoint_iff (rs : List KeyRange) (s e : UKey) :
    (rs.all (fun r => !(decide (s ≤ r.stop) && decide (r.start ≤ e))) = true) ↔
      ¬ ∃ r ∈ rs, s ≤ r.stop ∧ r.start ≤ e := by
  rw [List.all_eq_true]
  constructor
  · rintro h ⟨r, hr, h1, h2⟩
    have := h r hr
    simp [h1, h2] at this
  · intro h r hr
    by_contra hc
    simp only [Bool.not_eq_true, Bool.not_eq_false', Bool.and_eq_true,
      decide_eq_true_eq] at hc
    exact h ⟨r, hr, hc.1, hc.2⟩

/-- The closed interval `[s, e]` (with `s ≤ e`) meets a list of
well-formed intervals iff some point of `[s, e]` is covered. -/
theorem closed_touch_iff (rs : List KeyRange) (s e : UKey) (hse : s ≤ e)
    (hwf : ∀ r ∈ rs, r.start ≤ r.stop) :
    (∃ r ∈ rs, s ≤ r.stop ∧ r.start ≤ e) ↔
      ∃ k, s ≤ k ∧ k ≤ e ∧ coverList rs k := by
  constructor
  · rintro ⟨r, hr, h1, h2⟩
    refine ⟨max s r.start, le_max_left _ _, max_le hse h2, r, hr,
      le_max_right _ _, max_le h1 (hwf r hr)⟩
  · rintro ⟨k, h1, h2, r, hr, h3, h4⟩
    exact ⟨r, hr, le_trans h1 h4, le_trans h3 h2⟩

/-- C2: `elide_tombstone(user_key)` returns true iff the key lies
outside every in-use key range of every level below the output level
and no memtable is currently flushing (a flushing memtable's keys are
unknown to the compaction, so any key must be assumed inside its
range); over the S6 version at output level 2 with bounds [a,z] the
results for "b", "n", "z" are true and for "f", "t" false. -/
theorem c2_elide_tombstone_iff (c : Compaction) (k : UKey)
    (hwf : ∀ l ∈ List.range numLevels, inuseStartLevel c.outputLevel ≤ l →
      ∀ f ∈ c.version.filesAt l, f.smallest.userKey ≤ f.largest.userKey)
    (hb : ∀ l ∈ List.range numLevels, inuseStartLevel c.outputLevel ≤ l →
      ∀ f ∈ c.version.filesAt l,
        c.smallest.userKey ≤ f.largest.userKey ∧ f.smallest.userKey ≤ c.largest.userKey) :
    (elideTombstone c k = true ↔ c.flushing = [] ∧ ¬ inUseBelow c k) ∧
    elideTombstone elideC6 (uk "b") = true ∧
    elideTombstone elideC6 (uk "n") = true ∧
    elideTombstone elideC6 (uk "z") = true ∧
    elideTombstone elideC6 (uk "f") = false ∧
    elideTombstone elideC6 (uk "t") = false := by
  refine ⟨?_, by decide, by decide, by decide, by decide, by decide⟩
  unfold elideTombstone
  rw [Bool.and_eq_true, all_outside_iff, setupInuse_cover c k (collect_wf c hwf),
    collect_cover c k hb, List.isEmpty_iff]

theorem c2_witness :
    (elideTombstone elideC6 (uk "b") = true ↔
      elideC6.flushing = [] ∧ ¬ inUseBelow elideC6 (uk "b")) ∧
    elideTombstone elideC6 (uk "b") = true ∧
    elideTombstone elideC6 (uk "n") = true ∧
    elideTombstone elideC6 (uk "z") = true ∧
    elideTombstone elideC6 (uk "f") = false ∧
    elideTombstone elideC6 (uk "t") = false :=
  c2_elide_tombstone_iff elideC6 (uk "b") (by decide) (by decide)

/-- C1 (amended): `elide_range_tombstone(start, end)` returns true iff
no memtable is flushing and the CLOSED interval `[start, end]` — end
inclusive, not the claim's half-open `[start, end)` — meets no in-use
key range of any level beneath the output level; consequently the
boundary inputs ("e","f"), ("s","t") and ("v","w"), whose end keys touch
the in-use ranges [f,m], [t,t] and [w,x], all return false. -/
theorem c1_elide_range_closed_iff (c : Compaction) (s e : UKey)
    (hwf : ∀ l ∈ List.range numLevels, inuseStartLevel c.outputLevel ≤ l →
      ∀ f ∈ c.version.filesAt l, f.smallest.userKey ≤ f.largest.userKey)
    (hb : ∀ l ∈ List.range numLevels, inuseStartLevel c.outputLevel ≤ l →
      ∀ f ∈ c.version.filesAt l,
        c.smallest.userKey ≤ f.largest.userKey ∧ f.smallest.userKey ≤ c.largest.userKey)
    (hse : s ≤ e) :
    (elideRangeTombstone c s e = true ↔
      c.flushing = [] ∧ ¬ ∃ k, s ≤ k ∧ k ≤ e ∧ inUseBelow c k) ∧
    elideRangeTombstone elideC6 (uk "e") (uk "f") = false ∧
    elideRangeTombstone elideC6 (uk "s") (uk "t") = false ∧
    elideRangeTombstone elideC6 (uk "v") (uk "w") = false := by
  refine ⟨?_, by decide, by decide, by decide⟩
  unfold elideRangeTombstone
  rw [Bool.and_eq_true, all_disjoint_iff, List.isEmpty_iff,
    closed_touch_iff _ s e hse (setupInuse_wf c (collect_wf c hwf))]
  have hcong : ∀ k : UKey, s ≤ k ∧ k ≤ e ∧ coverList (setupInuseKeyRanges c) k ↔
      s ≤ k ∧ k ≤ e ∧ inUseBelow c k := by
    intro k
    rw [setupInuse_cover c k (collect_wf c hwf), collect_cover c k hb]
  rw [exists_congr hcong]

theorem c1_witness :
    elideRangeTombstone elideC6 (uk "e") (uk "f") = false ∧
    elideRangeTombstone elideC6 (uk "s") (uk "t") = false ∧
    elideRangeTombstone elideC6 (uk "v") (uk "w") = false :=
  (c1_elide_range_closed_iff elideC6 (uk "e") (uk "f")
    (by decide) (by decide) (by decide)).2

/-- C1 counterexample: at the S6 compaction, nothing is flushing and
every in-use key range lies strictly before "e" or at/after "f" — so
the half-open interval ["e","f") meets no in-use range and the claim
requires `elide_range_tombstone("e","f") = true` — yet it returns
false. -/
theorem c1_counterexample :
    elideC6.flushing = [] ∧
    (setupInuseKeyRanges elideC6).all
      (fun r => decide (r.stop < uk "e") || decide (uk "f" ≤ r.start)) = true ∧
    elideRangeTombstone elideC6 (uk "e") (uk "f") = false := by
  decide

/-- C10: whenever the compaction's flushing list is non-empty,
`elide_range_tombstone` returns false for every (start, end) pair,
without consulting the flushing memtables' key ranges; in the test's
flushing case the interval ["m","n"] meets no in-use key range of the
version, yet elision is refused. -/
theorem c10_flushing_blanket (c : Compaction) (s e : UKey)
    (h : c.flushing ≠ []) :
    elideRangeTombstone c s e = false ∧
    elideRangeTombstone elideFlushC (uk "m") (uk "n") = false ∧
    (setupInuseKeyRanges elideFlushC).all
      (fun r => !(decide (uk "m" ≤ r.stop) && decide (r.start ≤ uk "n"))) = true := by
  refine ⟨?_, by decide, by decide⟩
  cases hf : c.flushing with
  | nil => exact absurd hf h
  | cons a t =>
    unfold elideRangeTombstone
    rw [hf]
    rfl

theorem c10_witness :
    elideRangeTombstone elideFlushC (uk "m") (uk "n") = false ∧
    elideRangeTombstone elideFlushC (uk "m") (uk "n") = false ∧
    (setupInuseKeyRanges elideFlushC).all
      (fun r => !(decide (uk "m" ≤ r.stop) && decide (r.start ≤ uk "n"))) = true :=
  c10_flushing_blanket elideFlushC (uk "m") (uk "n") (by decide)

/-! ### Validation of the picker model against `TestPickCompaction`
(every case of the test). -/

theorem pick_testdata_simple :
    pickResult (pickAuto 0 0 0 pickVersion1) = "" ∧
    pickResult (pickAuto 99 0 1 pickVersion1) = "100  " ∧
    pickResult (pickAuto 99 0 1 pickVersion2) = "100  " ∧
    pickResult (pickAuto 99 0 1 pickVersion3) = "100,110  " ∧
    pickResult (pickAuto 99 0 1 pickVersionS2) = "100,110  " ∧
    pickResult (pickAuto 99 0 1 pickVersion5) = "100  " := by
  decide

theorem pick_testdata_levels :
    pickResult (pickAuto 99 0 1 pickVersion6) = "100 210 310,320,330" ∧
    pickResult (pickAuto 99 1 1 pickVersionS3small) = "200,210,220 300 " ∧
    pickResult (pickAuto 99 1 1 pickVersionGrowRange) = "200 300 " ∧
    pickResult (pickAuto 99 1 1 pickVersionS3) = "200 300 " := by
  decide

/-! ### The closure iteration reaches a fixpoint within its fuel. -/

theorem filter_mono_length {α : Type} (p q : α → Bool) (l : List α)
    (h : ∀ x ∈ l, p x = true → q x = true) :
    (l.filter p).length ≤ (l.filter q).length ∧
      ((l.filter p).length = (l.filter q).length → l.filter p = l.filter q) := by
  induction l with
  | nil => simp
  | cons a l ih =>
    have ih2 := ih (fun x hx hp => h x (List.mem_cons_of_mem a hx) hp)
    cases hp : p a with
    | true =>
      have hq : q a = true := h a (List.mem_cons_self a l) hp
      simp only [List.filter_cons, hp, hq, if_true, List.length_cons]
      refine ⟨Nat.succ_le_succ ih2.1, fun he => ?_⟩
      rw [ih2.2 (Nat.succ_injective he)]
    | false =>
      cases hq : q a with
      | true =>
        simp only [List.filter_cons, hp, hq, if_true, Bool.false_eq_true, if_false,
          List.length_cons]
        refine ⟨le_trans ih2.1 (Nat.le_succ _), fun he => ?_⟩
        have := ih2.1
        omega
      | false =>
        simp only [List.filter_cons, hp, hq, Bool.false_eq_true, if_false]
        exact ih2

theorem relClosureGo_fix (rel : FileMetadata → FileMetadata → Bool)
    (files : List FileMetadata) :
    ∀ (n : Nat) (p : FileMetadata → Bool),
      files.length ≤ n + (files.filter p).length →
      relStep rel files (relClosureGo rel files n (files.filter p)) =
        relClosureGo rel files n (files.filter p) := by
  intro n
  induction n with
  | zero =>
    intro p hlen
    have hle : (files.filter p).length ≤ files.length := List.length_filter_le p files
    have heq : (files.filter p).length = files.length :=
      le_antisymm hle (by simpa using hlen)
    have hall : ∀ x ∈ files, p x = true := by
      intro x hx
      by_contra hc
      have hlt : (files.filter p).length < files.length :=
        List.length_filter_lt_length_iff_exists.mpr ⟨x, hx, fun h => hc h⟩
      omega
    have hTfiles : files.filter p = files := List.filter_eq_self.mpr hall
    show relStep rel files (files.filter p) = files.filter p
    rw [hTfiles]
    unfold relStep
    apply List.filter_eq_self.mpr
    intro x hx
    simp [hx]
  | succ n ih =>
    intro p hlen
    show relStep rel files (relClosureGo rel files (n + 1) (files.filter p)) = _
    rw [relClosureGo]
    by_cases he : relStep rel files (files.filter p) = files.filter p
    · simp only [he, if_true]
    · simp only [he, if_false]
      have hmono : ∀ x ∈ files, p x = true →
          (fun g => decide (g ∈ files.filter p) ||
            (files.filter p).any (fun f => rel f g)) x = true := by
        intro x hx hp
        have hxT : x ∈ files.filter p := List.mem_filter.mpr ⟨hx, hp⟩
        simp [hxT]
      have hstep : relStep rel files (files.filter p) =
          files.filter (fun g => decide (g ∈ files.filter p) ||
            (files.filter p).any (fun f => rel f g)) := rfl
      have hmln := filter_mono_length p
        (fun g => decide (g ∈ files.filter p) ||
          (files.filter p).any (fun f => rel f g)) files hmono
      have hlt : (files.filter p).length < (relStep rel files (files.filter p)).length := by
        rw [hstep]
        rcases lt_or_eq_of_le hmln.1 with h | h
        · exact h
        · exact absurd (hmln.2 h).symm (by rw [← hstep]; exact he)
      have := ih (fun g => decide (g ∈ files.filter p) ||
        (files.filter p).any (fun f => rel f g)) (by rw [← hstep]; omega)
      rw [← hstep] at this
      exact this

theorem relClosure_fix (rel : FileMetadata → FileMetadata → Bool)
    (files T0 : List FileMetadata) :
    relStep rel files (relClosure rel files T0) = relClosure rel files T0 := by
  unfold relClosure
  exact relClosureGo_fix rel files (files.length + 1) (fun g => decide (g ∈ T0))
    (by omega)

theorem relClosure_subset (rel : FileMetadata → FileMetadata → Bool)
    (files T0 : List FileMetadata) :
    ∀ x ∈ relClosure rel files T0, x ∈ files := by
  intro x hx
  rw [← relClosure_fix rel files T0] at hx
  exact (List.mem_filter.mp hx).1

theorem relClosure_closed (rel : FileMetadata → FileMetadata → Bool)
    (files T0 : List FileMetadata) (f g : FileMetadata)
    (hf : f ∈ relClosure rel files T0) (hg : g ∈ files) (hrel : rel f g = true) :
    g ∈ relClosure rel files T0 := by
  rw [← relClosure_fix rel files T0]
  refine List.mem_filter.mpr ⟨hg, ?_⟩
  simp only [Bool.or_eq_true, List.any_eq_true, decide_eq_true_eq]
  exact Or.inr ⟨f, hf, hrel⟩

/-! ### Atomic-unit closure of the picked inputs. -/

theorem boundaryOrdered_tail (a : FileMetadata) (rest : List FileMetadata)
    (h : boundaryOrdered (a :: rest) = true) : boundaryOrdered rest = true := by
  cases rest with
  | nil => rfl
  | cons b rest2 =>
    rw [boundaryOrdered, Bool.and_eq_true] at h
    exact h.2

theorem boundary_head (rest : List FileMetadata) :
    ∀ x : FileMetadata,
      (∀ y ∈ rest, y.smallest.userKey ≤ y.largest.userKey) →
      boundaryOrdered (x :: rest) = true →
      ∀ y ∈ rest, x.largest.userKey ≤ y.smallest.userKey := by
  induction rest with
  | nil => intro x _ _ y hy; simp at hy
  | cons b rest ih =>
    intro x hwf hb y hy
    rw [boundaryOrdered, Bool.and_eq_true, decide_eq_true_eq] at hb
    rcases List.mem_cons.mp hy with h | h
    · rw [h]; exact hb.1
    · have hby := ih b (fun z hz => hwf z (List.mem_cons_of_mem b hz)) hb.2 y h
      exact le_trans hb.1 (le_trans (hwf b (List.mem_cons_self b rest)) hby)

theorem wellformed_share_touch (files : List FileMetadata)
    (hwf : ∀ y ∈ files, y.smallest.userKey ≤ y.largest.userKey)
    (hbo : boundaryOrdered files = true)
    (f g : FileMetadata) (hf : f ∈ files) (hg : g ∈ files) (u : UKey)
    (hf1 : f.smallest.userKey ≤ u) (hf2 : u ≤ f.largest.userKey)
    (hg1 : g.smallest.userKey ≤ u) (hg2 : u ≤ g.largest.userKey) :
    f = g ∨ fTouches f g = true := by
  induction files with
  | nil => simp at hf
  | cons a rest ih =>
    have hwfr : ∀ y ∈ rest, y.smallest.userKey ≤ y.largest.userKey :=
      fun y hy => hwf y (List.mem_cons_of_mem a hy)
    rcases List.mem_cons.mp hf with hfa | hfr
    · rcases List.mem_cons.mp hg with hga | hgr
      · left; rw [hfa, hga]
      · right
        have hle := boundary_head rest a hwfr hbo g hgr
        have heq : f.largest.userKey = g.smallest.userKey :=
          le_antisymm (hfa ▸ hle) (le_trans hg1 hf2)
        unfold fTouches
        simp [heq]
    · rcases List.mem_cons.mp hg with hga | hgr
      · right
        have hle := boundary_head rest a hwfr hbo f hfr
        have heq : g.largest.userKey = f.smallest.userKey :=
          le_antisymm (hga ▸ hle) (le_trans hf1 hg2)
        unfold fTouches
        simp [heq]
      · exact ih hwfr (boundaryOrdered_tail a rest hbo) hfr hgr

theorem startInput_closure (v : Version) (startLevel : Nat)
    (seed : List FileMetadata) :
    ∃ T0, startInput v startLevel seed =
      relClosure (if startLevel = 0 then fOverlaps else fTouches)
        (v.filesAt startLevel) T0 := by
  unfold startInput
  by_cases hs : startLevel = 0
  · subst hs
    refine ⟨overlapsL (v.filesAt 0) (keyRange seed).1.userKey (keyRange seed).2.userKey, ?_⟩
    rw [if_pos rfl, if_pos rfl]
    rfl
  · refine ⟨seed, ?_⟩
    rw [if_neg hs, if_neg hs]
    unfold expandInputs
    rw [if_neg hs]

theorem levelInput_closure (v : Version) (level : Nat) (lo hi : UKey) :
    ∃ T0, levelInput v level lo hi =
      relClosure (if level = 0 then fOverlaps else fTouches)
        (v.filesAt level) T0 := by
  unfold levelInput overlapsLevel expandInputs
  by_cases hl : level = 0
  · subst hl
    refine ⟨overlapsL (v.filesAt 0) lo hi, ?_⟩
    rw [if_pos rfl, if_pos rfl, if_pos rfl]
    rfl
  · refine ⟨overlapsL (v.filesAt level) lo hi, ?_⟩
    rw [if_neg hl, if_neg hl, if_neg hl]

theorem growInputs_some (v : Version) (startLevel outputLevel : Nat)
    (inputs0 inputs1 : List FileMetadata) (sm la : InternalKey)
    (r : List FileMetadata × List FileMetadata)
    (h : growInputs v startLevel outputLevel inputs0 inputs1 sm la = some r) :
    r.1 = growCandidate v startLevel sm la := by
  simp only [growInputs] at h
  by_cases h1 : inputs1 = []
  · rw [if_pos h1] at h; simp at h
  · rw [if_neg h1] at h
    by_cases h2 : (growCandidate v startLevel sm la).length ≤ inputs0.length
    · rw [if_pos h2] at h; simp at h
    · rw [if_neg h2] at h
      by_cases h3 : expandedCompactionByteSizeLimit startLevel <
          totalSize (growCandidate v startLevel sm la) + totalSize inputs1
      · rw [if_pos h3] at h; simp at h
      · rw [if_neg h3] at h
        by_cases h4 : growReOverlap v outputLevel (growCandidate v startLevel sm la) =
            inputs1
        · rw [if_pos h4] at h
          simp only [Option.some.injEq] at h
          rw [← h]
        · rw [if_neg h4] at h; simp at h

theorem setupInputs_inputs0 (v : Version) (startLevel outputLevel : Nat)
    (seed : List FileMetadata) :
    ∃ T0, (setupInputs v startLevel outputLevel seed).inputs0 =
      relClosure (if startLevel = 0 then fOverlaps else fTouches)
        (v.filesAt startLevel) T0 := by
  unfold setupInputs
  cases hgrow : growInputs v startLevel outputLevel (startInput v startLevel seed)
      (expandInputs outputLevel (v.filesAt outputLevel)
        (overlapsL (v.filesAt outputLevel)
          (keyRange (startInput v startLevel seed)).1.userKey
          (keyRange (startInput v startLevel seed)).2.userKey))
      (keyRange (startInput v startLevel seed ++
        expandInputs outputLevel (v.filesAt outputLevel)
          (overlapsL (v.filesAt outputLevel)
            (keyRange (startInput v startLevel seed)).1.userKey
            (keyRange (startInput v startLevel seed)).2.userKey))).1
      (keyRange (startInput v startLevel seed ++
        expandInputs outputLevel (v.filesAt outputLevel)
          (overlapsL (v.filesAt outputLevel)
            (keyRange (startInput v startLevel seed)).1.userKey
            (keyRange (startInput v startLevel seed)).2.userKey))).2 with
  | none =>
    simp only [hgrow]
    exact startInput_closure v startLevel seed
  | some r =>
    simp only [hgrow]
    have := growInputs_some _ _ _ _ _ _ _ _ hgrow
    rw [this]
    unfold growCandidate
    exact levelInput_closure v startLevel _ _

/-- C8: on the S2 version (two L0 files over user key "i") a pick at
level 0 with score ≥ 1 and base level 1 selects both files
(formatted "100,110  "); in general, for any pick on a version whose
levels ≥ 1 are well formed, the selected inputs[0] is closed under
atomic units: any start-level file sharing a user key with a selected
file is itself selected. -/
theorem c8_inputs0_closed (score level baseLevel : Nat) (v : Version)
    (c : PickedCompaction)
    (hw : ∀ l, 1 ≤ l → levelWellFormed (v.filesAt l) = true)
    (hpick : pickAuto score level baseLevel v = some c)
    (u : UKey) (f g : FileMetadata)
    (hf : f ∈ c.inputs0) (hg : g ∈ v.filesAt level)
    (hf1 : f.smallest.userKey ≤ u) (hf2 : u ≤ f.largest.userKey)
    (hg1 : g.smallest.userKey ≤ u) (hg2 : u ≤ g.largest.userKey) :
    g ∈ c.inputs0 ∧
    pickResult (pickAuto 99 0 1 pickVersionS2) = "100,110  " ∧
    (pickAuto 99 0 1 pickVersionS2).map (fun c => c.inputs0) =
      some [pickFile 100 1 (ik "i" 101) (ik "i" 102),
            pickFile 110 1 (ik "i" 111) (ik "i" 112)] := by
  refine ⟨?_, by decide, by decide⟩
  unfold pickAuto at hpick
  by_cases hsc : score < 1
  · rw [if_pos hsc] at hpick; simp at hpick
  · rw [if_neg hsc] at hpick
    cases hseed : seedFile (v.filesAt level) with
    | none => rw [hseed] at hpick; simp at hpick
    | some seed =>
      rw [hseed] at hpick
      simp only [Option.some.injEq] at hpick
      obtain ⟨T0, hT0⟩ :=
        setupInputs_inputs0 v level (if level = 0 then baseLevel else level + 1) [seed]
      rw [← hpick] at hf ⊢
      rw [hT0] at hf ⊢
      by_cases hl : level = 0
      · rw [if_pos hl] at hf ⊢
        refine relClosure_closed _ _ _ f g hf (hl ▸ hg) ?_
        unfold fOverlaps
        simp only [Bool.and_eq_true, decide_eq_true_eq]
        exact ⟨le_trans hf1 hg2, le_trans hg1 hf2⟩
      · rw [if_neg hl] at hf ⊢
        have hwl : levelWellFormed (v.filesAt level) = true :=
          hw level (Nat.one_le_iff_ne_zero.mpr hl)
        unfold levelWellFormed at hwl
        rw [Bool.and_eq_true] at hwl
        have hwfm : ∀ y ∈ v.filesAt level, y.smallest.userKey ≤ y.largest.userKey := by
          intro y hy
          exact of_decide_eq_true (List.all_eq_true.mp hwl.1 y hy)
        have hfm : f ∈ v.filesAt level := relClosure_subset _ _ _ f hf
        rcases wellformed_share_touch (v.filesAt level) hwfm hwl.2 f g hfm hg u
            hf1 hf2 hg1 hg2 with heq | htouch
        · rw [← heq]; exact hf
        · exact relClosure_closed _ _ _ f g hf hg htouch

theorem c8_witness :
    pickFile 110 1 (ik "i" 111) (ik "i" 112) ∈ pickedS2.inputs0 ∧
    pickResult (pickAuto 99 0 1 pickVersionS2) = "100,110  " ∧
    (pickAuto 99 0 1 pickVersionS2).map (fun c => c.inputs0) =
      some [pickFile 100 1 (ik "i" 101) (ik "i" 102),
            pickFile 110 1 (ik "i" 111) (ik "i" 112)] :=
  c8_inputs0_closed 99 0 1 pickVersionS2 pickedS2
    (fun l hl => by
      match l, hl with
      | l + 1, _ => rfl)
    (by decide) (uk "i")
    (pickFile 100 1 (ik "i" 101) (ik "i" 102))
    (pickFile 110 1 (ik "i" 111) (ik "i" 112))
    (by decide) (by decide)
    (by decide) (by decide) (by decide) (by decide)

/-- C3: given a strictly larger grow candidate, the grown start-level
input is accepted iff (a) re-overlapping the enlarged range at the
output level leaves inputs[1] identical and (b) the total byte size
stays within expanded_compaction_byte_size_limit of the level;
otherwise the growth is reverted (the only possible accepted result is
the candidate pair).  On the S3 layout the pick at level 1 stays at
inputs[0]={200}, inputs[1]={300} ("200 300 "), while the same layout
with size-1 files grows to inputs[0]={200,210,220} ("200,210,220
300 "). -/
theorem c3_grow_accept_iff (v : Version) (startLevel outputLevel : Nat)
    (inputs0 inputs1 : List FileMetadata) (sm la : InternalKey)
    (hne : inputs1 ≠ [])
    (hgrow : inputs0.length < (growCandidate v startLevel sm la).length) :
    (growInputs v startLevel outputLevel inputs0 inputs1 sm la =
        some (growCandidate v startLevel sm la,
          growReOverlap v outputLevel (growCandidate v startLevel sm la)) ↔
      growReOverlap v outputLevel (growCandidate v startLevel sm la) = inputs1 ∧
        totalSize (growCandidate v startLevel sm la) + totalSize inputs1 ≤
          expandedCompactionByteSizeLimit startLevel) ∧
    (∀ r, growInputs v startLevel outputLevel inputs0 inputs1 sm la = some r →
      r = (growCandidate v startLevel sm la,
        growReOverlap v outputLevel (growCandidate v startLevel sm la))) ∧
    pickResult (pickAuto 99 1 1 pickVersionS3) = "200 300 " ∧
    pickResult (pickAuto 99 1 1 pickVersionS3small) = "200,210,220 300 " := by
  refine ⟨?_, ?_, by decide, by decide⟩
  · simp only [growInputs]
    rw [if_neg hne, if_neg (not_le.mpr hgrow)]
    by_cases hsz : expandedCompactionByteSizeLimit startLevel <
        totalSize (growCandidate v startLevel sm la) + totalSize inputs1
    · rw [if_pos hsz]
      constructor
      · intro h; simp at h
      · rintro ⟨_, h2⟩; exact absurd h2 (not_le.mpr hsz)
    · rw [if_neg hsz]
      by_cases heq : growReOverlap v outputLevel (growCandidate v startLevel sm la) =
          inputs1
      · rw [if_pos heq]
        simp [heq, not_lt.mp hsz]
      · rw [if_neg heq]
        constructor
        · intro h; simp at h
        · rintro ⟨h1, _⟩; exact absurd h1 heq
  · intro r hr
    simp only [growInputs] at hr
    rw [if_neg hne, if_neg (not_le.mpr hgrow)] at hr
    by_cases hsz : expandedCompactionByteSizeLimit startLevel <
        totalSize (growCandidate v startLevel sm la) + totalSize inputs1
    · rw [if_pos hsz] at hr; simp at hr
    · rw [if_neg hsz] at hr
      by_cases heq : growReOverlap v outputLevel (growCandidate v startLevel sm la) =
          inputs1
      · rw [if_pos heq] at hr
        simp only [Option.some.injEq] at hr
        exact hr.symm
      · rw [if_neg heq] at hr; simp at hr

theorem c3_witness :
    (growInputs pickVersionS3small 1 2
        [pickFile 200 1 (ik "i1" 201) (ik "i2" 202)]
        [pickFile 300 1 (ik "a0" 301) (ik "l0" 302)]
        (ik "a0" 301) (ik "l0" 302) =
      some (growCandidate pickVersionS3small 1 (ik "a0" 301) (ik "l0" 302),
        growReOverlap pickVersionS3small 2
          (growCandidate pickVersionS3small 1 (ik "a0" 301) (ik "l0" 302))) ↔
      growReOverlap pickVersionS3small 2
          (growCandidate pickVersionS3small 1 (ik "a0" 301) (ik "l0" 302)) =
        [pickFile 300 1 (ik "a0" 301) (ik "l0" 302)] ∧
      totalSize (growCandidate pickVersionS3small 1 (ik "a0" 301) (ik "l0" 302)) +
          totalSize [pickFile 300 1 (ik "a0" 301) (ik "l0" 302)] ≤
        expandedCompactionByteSizeLimit 1) ∧
    pickResult (pickAuto 99 1 1 pickVersionS3) = "200 300 " ∧
    pickResult (pickAuto 99 1 1 pickVersionS3small) = "200,210,220 300 " :=
  ⟨(c3_grow_accept_iff pickVersionS3small 1 2
      [pickFile 200 1 (ik "i1" 201) (ik "i2" 202)]
      [pickFile 300 1 (ik "a0" 301) (ik "l0" 302)]
      (ik "a0" 301) (ik "l0" 302) (by decide) (by decide)).1,
   (c3_grow_accept_iff pickVersionS3small 1 2
      [pickFile 200 1 (ik "i1" 201) (ik "i2" 202)]
      [pickFile 300 1 (ik "a0" 301) (ik "l0" 302)]
      (ik "a0" 301) (ik "l0" 302) (by decide) (by decide)).2.2⟩

/-- C6: if at flush time the next file number has been reset to zero, or
a queued memtable's log number equals the new log's number, then with
the WAL enabled the flush reports the fatal errFlushInvariant through
the event listener's BackgroundError callback and does not complete,
while with the WAL disabled the check is skipped and the flush completes
without error; the four concrete outcomes mirror the test's 2×2
matrix. -/
theorem c6_flush_invariant (s : FlushState) (hq : s.queue ≠ [])
    (hviol : s.nextFileNum = 0 ∨ ∃ m ∈ s.queue, m.logNum = s.nextFileNum) :
    ((s.disableWAL = false → runFlush s = ⟨some errFlushInvariant, false⟩) ∧
      (s.disableWAL = true → runFlush s = ⟨none, true⟩)) ∧
    runFlush ⟨[⟨5⟩], 0, false⟩ = ⟨some errFlushInvariant, false⟩ ∧
    runFlush ⟨[⟨5⟩], 5, false⟩ = ⟨some errFlushInvariant, false⟩ ∧
    runFlush ⟨[⟨5⟩], 0, true⟩ = ⟨none, true⟩ ∧
    runFlush ⟨[⟨5⟩], 5, true⟩ = ⟨none, true⟩ := by
  refine ⟨⟨?_, ?_⟩, by decide, by decide, by decide, by decide⟩
  · intro hw
    unfold runFlush
    rw [hw]
    simp only [Bool.false_eq_true, if_false]
    rw [if_pos ?hany]
    case hany =>
      rcases hviol with h0 | ⟨m, hm, hlog⟩
      · cases hq2 : s.queue with
        | nil => exact absurd hq2 hq
        | cons m t =>
          apply List.any_eq_true.mpr
          exact ⟨m, List.mem_cons_self m t, by simp [h0]⟩
      · exact List.any_eq_true.mpr ⟨m, hm, by simp [hlog]⟩
  · intro hw
    unfold runFlush
    rw [hw]
    simp

theorem c6_witness :
    ((FlushState.mk [⟨5⟩] 0 false).disableWAL = false →
      runFlush ⟨[⟨5⟩], 0, false⟩ = ⟨some errFlushInvariant, false⟩) ∧
    ((FlushState.mk [⟨5⟩] 0 false).disableWAL = true →
      runFlush ⟨[⟨5⟩], 0, false⟩ = ⟨none, true⟩) :=
  (c6_flush_invariant ⟨[⟨5⟩], 0, false⟩ (by decide) (Or.inl rfl)).1

/-- Equation for `coordStep` on a non-empty queue. -/
theorem coordStep_cons (st : Coord) (m3 : ManualCompaction)
    (rest : List ManualCompaction) (h : st.manual = m3 :: rest) :
    coordStep st =
      if st.inProgress.any (fun x => manualConflicts x m3) then
        { st with manual := { m3 with retries := m3.retries + 1 } :: rest }
      else { st with manual := rest, installed := st.installed ++ [m3.mid] } := by
  unfold coordStep
  rw [h]

/-- Equation for `coordStep` on an empty queue. -/
theorem coordStep_nil (st : Coord) (h : st.manual = []) : coordStep st = st := by
  unfold coordStep
  rw [h]

theorem coordStep_preserves (st : Coord) (X : OwnedCompaction) (m : ManualCompaction)
    (hX : X ∈ st.inProgress) (hc : manualConflicts X m = true)
    (hall : ∀ q ∈ st.manual, q.mid = m.mid → q.lo = m.lo ∧ q.hi = m.hi)
    (hex : ∃ q ∈ st.manual, q.mid = m.mid)
    (hni : m.mid ∉ st.installed) :
    X ∈ (coordStep st).inProgress ∧
    (∀ q ∈ (coordStep st).manual, q.mid = m.mid → q.lo = m.lo ∧ q.hi = m.hi) ∧
    (∃ q ∈ (coordStep st).manual, q.mid = m.mid) ∧
    m.mid ∉ (coordStep st).installed := by
  cases hman : st.manual with
  | nil =>
    rw [coordStep_nil st hman]
    exact ⟨hX, hall, hex, hni⟩
  | cons m3 rest =>
    rw [coordStep_cons st m3 rest hman]
    rw [hman] at hall hex
    by_cases hconf : st.inProgress.any (fun x => manualConflicts x m3) = true
    · rw [if_pos hconf]
      refine ⟨hX, ?_, ?_, hni⟩
      · intro q hq hqm
        rcases List.mem_cons.mp hq with h | h
        · have h3 := hall m3 (List.mem_cons_self m3 rest) (by rw [h] at hqm; exact hqm)
          rw [h]
          exact h3
        · exact hall q (List.mem_cons_of_mem m3 h) hqm
      · obtain ⟨q, hq, hqm⟩ := hex
        rcases List.mem_cons.mp hq with h | h
        · exact ⟨{ m3 with retries := m3.retries + 1 }, List.mem_cons_self _ _,
            by rw [h] at hqm; exact hqm⟩
        · exact ⟨q, List.mem_cons_of_mem _ h, hqm⟩
    · rw [if_neg hconf]
      have hne : m3.mid ≠ m.mid := by
        intro heq
        obtain ⟨hlo, hhi⟩ := hall m3 (List.mem_cons_self m3 rest) heq
        apply hconf
        apply List.any_eq_true.mpr
        refine ⟨X, hX, ?_⟩
        unfold manualConflicts at hc ⊢
        rw [hlo, hhi]
        exact hc
      refine ⟨hX, ?_, ?_, ?_⟩
      · intro q hq hqm
        exact hall q (List.mem_cons_of_mem m3 hq) hqm
      · obtain ⟨q, hq, hqm⟩ := hex
        rcases List.mem_cons.mp hq with h | h
        · exact absurd (by rw [← h]; exact hqm) hne
        · exact ⟨q, h, hqm⟩
      · intro hmem
        rcases List.mem_append.mp hmem with h | h
        · exact hni h
        · exact hne (List.mem_singleton.mp h).symm

/-- Preservation over any event that does not remove the conflicting
compaction. -/
theorem coordRun_not_installed (events : List CoordEvent) :
    ∀ (st : Coord) (X : OwnedCompaction) (m : ManualCompaction),
      X ∈ st.inProgress → manualConflicts X m = true →
      (∀ q ∈ st.manual, q.mid = m.mid → q.lo = m.lo ∧ q.hi = m.hi) →
      (∃ q ∈ st.manual, q.mid = m.mid) →
      m.mid ∉ st.installed →
      (∀ e ∈ events, e ≠ CoordEvent.remove X.cid) →
      m.mid ∉ (coordRun st events).installed := by
  induction events with
  | nil => intro st X m _ _ _ _ hni _; exact hni
  | cons e es ih =>
    intro st X m hX hc hall hex hni hnr
    show m.mid ∉ (coordRun (coordApply st e) es).installed
    cases e with
    | step =>
      obtain ⟨hX2, hall2, hex2, hni2⟩ := coordStep_preserves st X m hX hc hall hex hni
      exact ih (coordStep st) X m hX2 hc hall2 hex2 hni2
        (fun e2 he2 => hnr e2 (List.mem_cons_of_mem _ he2))
    | remove cid =>
      have hcid : cid ≠ X.cid := by
        intro heq
        exact hnr (.remove cid) (List.mem_cons_self _ _) (by rw [heq])
      have hX2 : X ∈ (coordApply st (.remove cid)).inProgress := by
        unfold coordApply
        refine List.mem_filter.mpr ⟨hX, ?_⟩
        simp [bne_iff_ne]
        exact fun h => hcid h.symm
      exact ih _ X m hX2 hc hall hex hni
        (fun e2 he2 => hnr e2 (List.mem_cons_of_mem _ he2))

/-- C7: a manual compaction whose target range overlaps a file owned by
an in-progress compaction is never started or failed — a scheduling
step re-queues it with its retries counter incremented — and it is
never installed while the conflicting compaction remains in the
in-progress set; in the concrete scenario, after two blocked steps the
queued request shows retries = 2 > 0 and nothing installed, and only
after the conflicting compaction is removed does a step install it. -/
theorem c7_manual_deferred (st : Coord) (X : OwnedCompaction)
    (m : ManualCompaction) (rest : List ManualCompaction)
    (events : List CoordEvent)
    (hhead : st.manual = m :: rest)
    (hX : X ∈ st.inProgress)
    (hc : manualConflicts X m = true)
    (hall : ∀ q ∈ st.manual, q.mid = m.mid → q.lo = m.lo ∧ q.hi = m.hi)
    (hni : m.mid ∉ st.installed)
    (hnr : ∀ e ∈ events, e ≠ CoordEvent.remove X.cid) :
    coordStep st = { st with manual := { m with retries := m.retries + 1 } :: rest } ∧
    m.mid ∉ (coordRun st events).installed ∧
    (coordRun coordInit [.step, .step]).manual = [⟨7, uk "a", uk "b", 2⟩] ∧
    (coordRun coordInit [.step, .step]).installed = [] ∧
    coordRun coordInit [.step, .step, .remove 1, .step] = ⟨[], [], [7]⟩ := by
  refine ⟨?_, ?_, by decide, by decide, by decide⟩
  · rw [coordStep_cons st m rest hhead]
    rw [if_pos (List.any_eq_true.mpr ⟨X, hX, hc⟩)]
  · exact coordRun_not_installed events st X m hX hc hall
      ⟨m, by rw [hhead]; exact List.mem_cons_self m rest, rfl⟩ hni hnr

theorem c7_witness :
    coordStep coordInit =
      { coordInit with manual := { coordM with retries := coordM.retries + 1 } :: [] } ∧
    coordM.mid ∉ (coordRun coordInit [.step, .step]).installed ∧
    (coordRun coordInit [.step, .step]).manual = [⟨7, uk "a", uk "b", 2⟩] ∧
    (coordRun coordInit [.step, .step]).installed = [] ∧
    coordRun coordInit [.step, .step, .remove 1, .step] = ⟨[], [], [7]⟩ :=
  c7_manual_deferred coordInit coordX coordM [] [.step, .step]
    (by decide) (by decide) (by decide) (by decide) (by decide) (by decide)
